import Mathlib

/-!
The HTU21D hygrometer driver and the weather station of npotts/sensors.

A shallow embedding of `htu21d/humidity.go`, `wxstation/wxstation.go` and the
initialisation of `mpl3115/barometer.go`.

* Bytes (`byte`, `uint8`) are values of `Fin 256`; arithmetic on them is carried out on
  `Nat` with an explicit `% 256` after every operation that can leave the 8-bit range.
* The i2c transport is an external collaborator.  It is modelled as an arbitrary
  deterministic responder: a function from the history of requests to the bytes it
  delivers and the error it reports.  Driver code threads the request history through.
* `float64` code is embedded over `Float`; the formulas are also read over `ℝ` where a
  statement is about the mathematics of the formula.
-/

/-- A Go `byte`. -/
abbrev Byte := Fin 256

/-- A Go `error` value (`nil` is `Option.none` at the use sites). -/
inductive GoError where
  | transport (code : Nat)
  | errorf (msg : String)
deriving DecidableEq, Repr

namespace i2c

/-- A request issued to the i2c layer, or a pause between two requests. -/
inductive Event where
  | open (addr : Nat)
  | readReg (reg : Nat) (len : Nat)
  | writeReg (reg : Nat) (data : List Byte)
  | write (data : List Byte)
  | read (len : Nat)
  | sleep (ns : Nat)
deriving DecidableEq, Repr

/-- The requests issued so far, oldest first. -/
abbrev Trace := List Event

/-- The behaviour of the transport: given the history of requests, the last one being the
request to answer, the bytes it delivers into the caller's buffer and the error it reports. -/
structure Bus where
  respond : Trace → List Byte × Option GoError

/-- The bus to open, `i2c.Devfs`. -/
structure Devfs where
  Dev : String
deriving DecidableEq, Repr

/-- An opened device handle (`*i2c.Device`). -/
structure Device where
  addr : Nat
deriving DecidableEq, Repr

/-- The caller's buffer after the transport has copied `delivered` into it: a callee cannot
change the length of the caller's slice, bytes that were not delivered keep their value. -/
def fill (buf delivered : List Byte) : List Byte :=
  delivered.take buf.length ++ buf.drop delivered.length

/-- Model of `i2c.Open(dev, addr)`: a device handle, or the error. -/
def Open (bus : Bus) (t : Trace) (_dev : Devfs) (addr : Nat) :
    Except GoError Device × Trace :=
  let t1 := t ++ [Event.open addr]
  match (bus.respond t1).2 with
  | some e => (Except.error e, t1)
  | none => (Except.ok ⟨addr⟩, t1)

/-- Model of `d.ReadReg(reg, buf)`: the buffer afterwards and the error. -/
def Device.ReadReg (_d : Device) (bus : Bus) (t : Trace) (reg : Nat) (buf : List Byte) :
    (List Byte × Option GoError) × Trace :=
  let t1 := t ++ [Event.readReg reg buf.length]
  let r := bus.respond t1
  ((fill buf r.1, r.2), t1)

/-- Model of `d.WriteReg(reg, buf)`. -/
def Device.WriteReg (_d : Device) (bus : Bus) (t : Trace) (reg : Nat) (buf : List Byte) :
    Option GoError × Trace :=
  let t1 := t ++ [Event.writeReg reg buf]
  ((bus.respond t1).2, t1)

/-- Model of `d.Write(buf)`. -/
def Device.Write (_d : Device) (bus : Bus) (t : Trace) (buf : List Byte) :
    Option GoError × Trace :=
  let t1 := t ++ [Event.write buf]
  ((bus.respond t1).2, t1)

/-- Model of `d.Read(buf)`: the buffer afterwards and the error. -/
def Device.Read (_d : Device) (bus : Bus) (t : Trace) (buf : List Byte) :
    (List Byte × Option GoError) × Trace :=
  let t1 := t ++ [Event.read buf.length]
  let r := bus.respond t1
  ((fill buf r.1, r.2), t1)

end i2c

namespace crc8

/-- Modelled from the spec: the package `github.com/sigurn/crc8` is imported by
`humidity.go` but is not among the sources.  `Params` are the parameters of a CRC-8
algorithm, as written in the `crc8.Params` literal of `NewHTU21D`. -/
structure Params where
  Poly : Nat
  Init : Nat
  RefIn : Bool
  RefOut : Bool
  XorOut : Nat
  Check : Nat
  Name : String
deriving DecidableEq, Repr

/-- Modelled from the spec: one shift of the 8-bit CRC register (most significant bit
first), the step from which the absent package builds its lookup table. -/
def shiftStep (poly crc : Nat) : Nat :=
  if crc &&& 0x80 ≠ 0 then ((crc <<< 1) % 256) ^^^ poly else (crc <<< 1) % 256

/-- Modelled from the spec: entry `n` of the lookup table of the absent package
`github.com/sigurn/crc8`, eight shifts of the register started at `n`. -/
def tableEntry (poly n : Nat) : Nat :=
  (shiftStep poly)^[8] n

/-- Modelled from the spec: `crc8.Table` of the absent package, the parameters and the 256
table entries. -/
structure Table where
  params : Params
  data : List Nat
deriving DecidableEq, Repr

/-- Modelled from the spec: `crc8.MakeTable` of the absent package. -/
def MakeTable (params : Params) : Table :=
  { params := params, data := (List.range 256).map (tableEntry params.Poly) }

/-- Modelled from the spec: bit reversal of a byte, used by the absent package for the
reflected variants. -/
def reverse8 (b : Nat) : Nat :=
  (List.range 8).foldl (fun acc i => acc ||| (((b >>> i) &&& 1) <<< (7 - i))) 0

/-- Modelled from the spec: `crc8.Update` of the absent package, one table lookup per
data byte. -/
def Update (crc : Nat) (data : List Byte) (table : Table) : Nat :=
  if table.params.RefIn then
    data.foldl (fun c d => table.data.getD (c ^^^ reverse8 d.val) 0) crc
  else
    data.foldl (fun c d => table.data.getD (c ^^^ d.val) 0) crc

/-- Modelled from the spec: `crc8.Complete` of the absent package. -/
def Complete (crc : Nat) (table : Table) : Nat :=
  if table.params.RefOut then reverse8 crc ^^^ table.params.XorOut
  else crc ^^^ table.params.XorOut

/-- Modelled from the spec: `crc8.Checksum` of the absent package
`github.com/sigurn/crc8`. -/
def Checksum (data : List Byte) (table : Table) : Nat :=
  Complete (Update table.params.Init data table) table

/-- Inverse of one register shift for an odd polynomial: the last bit of the shifted
register tells whether the polynomial was added. -/
def unshift (poly t : Nat) : Nat :=
  if t % 2 = 1 then (t ^^^ poly) / 2 + 128 else t / 2

end crc8

namespace math

/-- Go's `math.NaN()`. -/
def NaN : Float := 0.0 / 0.0

/-- Go's `math.Pow`. -/
def Pow (x y : Float) : Float := Float.pow x y

/-- Go's `math.Log10`. -/
def Log10 (x : Float) : Float := Float.log10 x

end math

namespace time

/-- Go's `time.Millisecond`, a `time.Duration` in nanoseconds. -/
def Millisecond : Nat := 1000000

end time

namespace htu21d

def htuMeasTempHold : Nat := 0xE3
def htuMeasHumdHold : Nat := 0xE5
def htuMeasTemp : Nat := 0xF3
def htuMeasHumd : Nat := 0xF5
def htuWriteReg : Nat := 0xE6
def htuReadReg : Nat := 0xE7
def htuReset : Nat := 0xE7

/-- The driver state, `type HTU21D struct`. -/
structure HTU21D where
  mode0 : Bool
  mode1 : Bool
  heater : Bool
  oTPReload : Bool
  i2c : i2c.Device
  coeffTemp : Float
  crcTable : crc8.Table

/-- The parameters `NewHTU21D` passes to `crc8.MakeTable`. -/
def crcParams : crc8.Params :=
  { Poly := 0x31, Init := 0x00, RefIn := false, RefOut := false, XorOut := 0x00,
    Check := 0xFF, Name := "CRC-HTU21D" }

/-- Embedding of `HTU21D.checkCRC`. -/
def HTU21D.checkCRC (h : HTU21D) (packet : List Byte) : Bool :=
  if packet.length < 1 then false
  else decide ((packet.getD (packet.length - 1) 0).val
    = crc8.Checksum (packet.take (packet.length - 1)) h.crcTable)

/-- The closure `b2b` of `NewHTU21D`. -/
def b2b (i : Bool) : Nat := if i then 1 else 0

/-- The value of `reg` in `NewHTU21D`: Go parses `x<<k + y` as `(x<<k) + y`, and every
operation is on `byte`, so each shift and each sum wraps at 8 bits. -/
def configReg (h : HTU21D) (buf0 : Byte) : Nat :=
  ((((((((b2b h.mode1 <<< 7) % 256
    + ((buf0.val &&& 0x20) <<< 5) % 256) % 256
    + ((buf0.val &&& 0x10) <<< 4) % 256) % 256
    + ((buf0.val &&& 0x08) <<< 3) % 256) % 256
    + (b2b h.heater <<< 2) % 256) % 256
    + (b2b h.oTPReload <<< 1) % 256) % 256
    + (b2b h.mode0 <<< 0) % 256) % 256)

/-- The struct literal `&HTU21D{...}` of `NewHTU21D`: the fields it does not name
(`oTPReload`, `coeffTemp`) have Go's zero value. -/
def driverOf (d : i2c.Device) (mode1 mode0 heater : Bool) : HTU21D :=
  { mode0 := mode0, mode1 := mode1, heater := heater, oTPReload := false, i2c := d,
    coeffTemp := 0.0, crcTable := crc8.MakeTable crcParams }

/-- Embedding of `NewHTU21D`: the returned pair and the requests issued. -/
def NewHTU21D (bus : i2c.Bus) (t : i2c.Trace) (dev : i2c.Devfs) (mode1 mode0 heater : Bool) :
    (Option HTU21D × Option GoError) × i2c.Trace :=
  match i2c.Open bus t dev 0x40 with
  | (Except.error err, t1) => ((none, some err), t1)
  | (Except.ok d, t1) =>
    let h : HTU21D := driverOf d mode1 mode0 heater
    let buf : List Byte := List.replicate 1 0
    match h.i2c.ReadReg bus t1 htuReadReg buf with
    | ((_, some e), t2) => ((none, some e), t2)
    | ((buf, none), t2) =>
      let reg := configReg h (buf.getD 0 0)
      match h.i2c.WriteReg bus t2 htuWriteReg [Fin.ofNat reg] with
      | (some err, t3) => ((none, some err), t3)
      | (none, t3) => ((some h, none), t3)

/-- Embedding of `HTU21D.asTemp`. -/
def HTU21D.asTemp (_h : HTU21D) (sample : Nat) : Float :=
  175.72 * sample.toFloat / 65536.0 - 46.85

/-- Embedding of `HTU21D.asHumidity`. -/
def HTU21D.asHumidity (_h : HTU21D) (sample : Nat) : Float :=
  125.0 * sample.toFloat / 65536.0 - 6.0

def a : Float := 8.1332
def b : Float := 1762.39
def c : Float := 235.66

/-- Embedding of `HTU21D.partialPressure`. -/
def HTU21D.partialPressure (_h : HTU21D) (tambient : Float) : Float :=
  math.Pow 10.0 (a - b / (tambient + c))

/-- Embedding of `HTU21D.dewpoint`. -/
def HTU21D.dewpoint (h : HTU21D) (tambient rh : Float) : Float :=
  -(b / (math.Log10 (rh * h.partialPressure tambient / 100.00) - a) + c)

/-- The error `fmt.Errorf("Checksum missmatch")` of `HTU21D.read`. -/
def checksumMismatch : GoError := GoError.errorf "Checksum missmatch"

/-- Embedding of `HTU21D.read`: the returned pair and the requests issued.  The command
written is the constant `htuMeasHumd`; the parameter `cmd` is not used by the body. -/
def HTU21D.read (h : HTU21D) (bus : i2c.Bus) (t : i2c.Trace) (_cmd : Byte) (backoff : Nat) :
    (Nat × Option GoError) × i2c.Trace :=
  match h.i2c.Write bus t [Fin.ofNat htuMeasHumd] with
  | (some err, t1) => ((0, some err), t1)
  | (none, t1) =>
    let t2 := t1 ++ [i2c.Event.sleep backoff]
    let buffer : List Byte := List.replicate 3 0
    match h.i2c.Read bus t2 buffer with
    | ((buffer, err), t3) =>
      if err ≠ none ∨ buffer.length ≠ 3 then ((0, err), t3)
      else
        let val := (((buffer.getD 0 0).val <<< 8) % 2 ^ 64) ||| ((buffer.getD 1 0).val &&& 0xFF)
        if h.checkCRC buffer then ((val, none), t3)
        else ((val, some checksumMismatch), t3)

/-- The result type `RHMeasurement`. -/
structure RHMeasurement where
  Humidity : Float
  Temperature : Float
  Dewpoint : Float

/-- Embedding of `HTU21D.Measure`: the returned pair and the requests issued. -/
def HTU21D.Measure (h : HTU21D) (bus : i2c.Bus) (t : i2c.Trace) :
    (RHMeasurement × Option GoError) × i2c.Trace :=
  let rhm : RHMeasurement := ⟨math.NaN, math.NaN, math.NaN⟩
  match h.read bus t (Fin.ofNat htuMeasHumd) (75 * time.Millisecond) with
  | ((_, some err), t1) => ((rhm, some err), t1)
  | ((raw, none), t1) =>
    let rhm := { rhm with Humidity := h.asHumidity raw }
    match h.read bus t1 (Fin.ofNat htuMeasTemp) (75 * time.Millisecond) with
    | ((_, some err), t2) => ((rhm, some err), t2)
    | ((raw, none), t2) =>
      let rhm := { rhm with Temperature := h.asTemp raw }
      let rhm := { rhm with Dewpoint := h.dewpoint rhm.Temperature rhm.Humidity }
      ((rhm, none), t2)

namespace overReals

/-- The constants `a`, `b`, `c` of `humidity.go`, read as real numbers. -/
def a : ℝ := 8.1332
def b : ℝ := 1762.39
def c : ℝ := 235.66

/-- The formula of `HTU21D.partialPressure` read over the real numbers. -/
noncomputable def partialPressure (tambient : ℝ) : ℝ :=
  (10.0 : ℝ) ^ (a - b / (tambient + c))

/-- The formula of `HTU21D.dewpoint` read over the real numbers. -/
noncomputable def dewpoint (tambient rh : ℝ) : ℝ :=
  -(b / (Real.logb 10 (rh * partialPressure tambient / 100.00) - a) + c)

end overReals

/-- A transport that never fails and answers every read with the bytes `bs`. -/
def steadyBus (bs : List Byte) : i2c.Bus :=
  { respond := fun _ => (bs, none) }

end htu21d

namespace wxstation

/-- The station reading, `type Measurement struct`. -/
structure Measurement where
  Pressure : Float
  PressT : Float
  Humidity : Float
  HumidityT : Float
  Dewpoint : Float

/-- Embedding of `Measurement.clear`: the reading after the call. -/
def Measurement.clear (_m : Measurement) : Measurement :=
  { Pressure := math.NaN, PressT := math.NaN, Humidity := math.NaN, HumidityT := math.NaN,
    Dewpoint := math.NaN }

/-- The station, `type Station struct`. -/
structure Station where
  i2c : i2c.Devfs
  rh : htu21d.HTU21D

/-- Embedding of `NewStation`. -/
def NewStation (bus : i2c.Bus) (t : i2c.Trace) (device : String) :
    (Option Station × Option GoError) × i2c.Trace :=
  let dev : i2c.Devfs := { Dev := device }
  match htu21d.NewHTU21D bus t dev false false true with
  | ((_, some err), t1) => ((none, some err), t1)
  | ((none, none), t1) => ((none, none), t1)
  | ((some rh, none), t1) => ((some { i2c := dev, rh := rh }, none), t1)

/-- Embedding of `Station.Measure`: the named results `m` and `e` start at Go's zero
values, and `e` is never assigned. -/
def Station.Measure (s : Station) (bus : i2c.Bus) (t : i2c.Trace) :
    (Measurement × Option GoError) × i2c.Trace :=
  let m : Measurement := ⟨0.0, 0.0, 0.0, 0.0, 0.0⟩
  let e : Option GoError := none
  let m := m.clear
  match s.rh.Measure bus t with
  | ((rh, none), t1) =>
    (({ m with Humidity := rh.Humidity, HumidityT := rh.Temperature,
               Dewpoint := rh.Dewpoint }, e), t1)
  | ((_, some _), t1) => ((m, e), t1)

end wxstation


namespace crc8Spec

/-- The CRC-8 of the spec, one message bit at a time: the register is shifted left by one
bit, and the polynomial is added when the bit shifted out differs from the message bit. -/
def bitStep (poly reg : Nat) (m : Bool) : Nat :=
  if (reg.testBit 7 != m) then ((2 * reg) % 256) ^^^ poly else (2 * reg) % 256

/-- The bits of a byte, most significant first (no input reflection). -/
def byteBits (b : Byte) : List Bool :=
  [b.val.testBit 7, b.val.testBit 6, b.val.testBit 5, b.val.testBit 4,
   b.val.testBit 3, b.val.testBit 2, b.val.testBit 1, b.val.testBit 0]

/-- The first `k` bits of a byte, most significant first, read off by shifting. -/
def bitsMSB : Nat → Nat → List Bool
  | 0, _ => []
  | k + 1, d => d.testBit 7 :: bitsMSB k ((2 * d) % 256)

/-- The checksum of the spec: polynomial 0x31, initial value 0x00, no reflection of input
or output, XOR-out 0x00. -/
def checksum (data : List Byte) : Nat :=
  (data.foldl (fun reg b => (byteBits b).foldl (bitStep 0x31) reg) 0x00) ^^^ 0x00

end crc8Spec

/-- The packet `p` with bit `i` flipped, bits counted from the first byte on, eight a
byte. -/
def flipBit (p : List Byte) (i : Nat) : List Byte :=
  p.set (i / 8) (Fin.ofNat ((p.getD (i / 8) 0).val ^^^ (1 <<< (i % 8))))

/-- The requests issued up to the end of one `read` whose command write succeeds. -/
def htu21d.readTrace (t : i2c.Trace) (backoff : Nat) : i2c.Trace :=
  t ++ [i2c.Event.write [0xF5]] ++ [i2c.Event.sleep backoff] ++ [i2c.Event.read 3]

/-- The configuration byte as the spec words it: bit 7 the first resolution bit, bits 5 to
3 the reserved bits as read, bit 2 the heater, bit 1 the OTP-reload bit, bit 0 the second
resolution bit. -/
def configRegSpec (mode1 mode0 heater oTPReload : Bool) (r : Byte) : Nat :=
  (htu21d.b2b mode1 <<< 7) ||| (r.val &&& 0x38) ||| (htu21d.b2b heater <<< 2)
    ||| (htu21d.b2b oTPReload <<< 1) ||| (htu21d.b2b mode0 <<< 0)

/-- The bytes a request puts on the bus: the data of a write, the register address and the
data of a register write, the register address of a register read. -/
def i2c.Event.bytesWritten : i2c.Event → List Byte
  | i2c.Event.write data => data
  | i2c.Event.writeReg reg data => Fin.ofNat reg :: data
  | i2c.Event.readReg reg _ => [Fin.ofNat reg]
  | _ => []

/-- The guarantee of the `Devfs` transport that `NewHTU21D` is bound to: a bus read that
reports no error has filled the caller's buffer, so a short delivery comes with an
error. -/
def i2c.Bus.readsFull (bus : i2c.Bus) : Prop :=
  ∀ (t : i2c.Trace) (n : Nat), (bus.respond (t ++ [i2c.Event.read n])).2 = none →
    n ≤ (bus.respond (t ++ [i2c.Event.read n])).1.length

/-- A transport that accepts every write and answers every bus read with the two bytes
`[0x12, 0x34]` and an error. -/
def htu21d.shortReadBus : i2c.Bus :=
  { respond := fun t =>
      match t.getLast? with
      | some (i2c.Event.read _) => ([0x12, 0x34], some (GoError.transport 1))
      | _ => ([], none) }

/-- All bytes the requests of a trace put on the bus, in order. -/
def i2c.bytesWritten (t : i2c.Trace) : List Byte :=
  (t.map i2c.Event.bytesWritten).flatten

namespace htu21d.overRationals

/-- The formula of `HTU21D.asTemp` read over the rational numbers. -/
def asTemp (sample : Nat) : ℚ :=
  175.72 * (sample : ℚ) / 65536.0 - 46.85

/-- The formula of `HTU21D.asHumidity` read over the rational numbers. -/
def asHumidity (sample : Nat) : ℚ :=
  125.0 * (sample : ℚ) / 65536.0 - 6.0

end htu21d.overRationals

namespace mpl3115

def regSenStatus : Byte := 0x00
def regPresMSB : Byte := 0x01
def regPresCSB : Byte := 0x02
def regPresLSB : Byte := 0x03
def regTempMSB : Byte := 0x04
def regTempLSB : Byte := 0x05
def regFifoSetup : Byte := 0x0F
def regCtrlReg1 : Byte := 0x26
def regCtrlReg2 : Byte := 0x27
def regCtrlReg3 : Byte := 0x28
def regCtrlReg4 : Byte := 0x29
def regCtrlReg5 : Byte := 0x2A
def regToffset : Byte := 0x2B
def regPoffset : Byte := 0x2B

/-- A register and the byte to write to it, `type regCmd struct`. -/
structure regCmd where
  reg : Byte
  cmd : Byte
deriving DecidableEq, Repr

/-- The barometer driver, `type Baraometer struct`. -/
structure Baraometer where
  i2c : i2c.Device
deriving DecidableEq, Repr

/-- The slice `cmds` of `NewMPL3115`. -/
def cmds : List regCmd :=
  [⟨regFifoSetup, 0x00⟩, ⟨regCtrlReg1, 0x79⟩, ⟨regCtrlReg2, 0x00⟩, ⟨regCtrlReg3, 0x00⟩,
   ⟨regCtrlReg4, 0x00⟩, ⟨regCtrlReg5, 0x00⟩]

/-- The loop `for _, rg := range cmds` of `NewMPL3115`: one register write per entry,
left at the first write that reports an error. -/
def Baraometer.writeCmds (m : Baraometer) (bus : i2c.Bus) :
    i2c.Trace → List regCmd → Option GoError × i2c.Trace
  | t, [] => (none, t)
  | t, rg :: rest =>
    match m.i2c.WriteReg bus t rg.reg.val [rg.cmd] with
    | (some err, t1) => (some err, t1)
    | (none, t1) => Baraometer.writeCmds m bus t1 rest

/-- Embedding of `NewMPL3115`: the returned pair and the requests issued. -/
def NewMPL3115 (bus : i2c.Bus) (t : i2c.Trace) (dev : i2c.Devfs) :
    (Option Baraometer × Option GoError) × i2c.Trace :=
  match i2c.Open bus t dev 0x60 with
  | (Except.error err, t1) => ((none, some err), t1)
  | (Except.ok d, t1) =>
    let m : Baraometer := { i2c := d }
    match m.writeCmds bus t1 cmds with
    | (some err, t2) => ((none, some err), t2)
    | (none, t2) => ((some m, none), t2)

/-- The register writes of `NewMPL3115` as requests, in the order of `cmds`. -/
def cmdEvents (l : List regCmd) : i2c.Trace :=
  l.map (fun rg => i2c.Event.writeReg rg.reg.val [rg.cmd])

end mpl3115

namespace htu21d

/-- The requests issued up to the register read of `NewHTU21D`. -/
def readRegTrace (t : i2c.Trace) : i2c.Trace :=
  t ++ [i2c.Event.open 0x40] ++ [i2c.Event.readReg 0xE7 1]

/-- The byte `buf[0]` of `NewHTU21D` after the register read. -/
def readBack (bus : i2c.Bus) (t : i2c.Trace) : Byte :=
  (i2c.fill [0] (bus.respond (readRegTrace t)).1).getD 0 0

/-- The requests issued up to the register write of `NewHTU21D`. -/
def writeRegTrace (bus : i2c.Bus) (t : i2c.Trace) (mode1 mode0 heater : Bool) : i2c.Trace :=
  readRegTrace t ++ [i2c.Event.writeReg 0xE6
    [Fin.ofNat (configReg (driverOf ⟨0x40⟩ mode1 mode0 heater) (readBack bus t))]]

end htu21d

/-! ## The configuration register -/

namespace htu21d

/-- C1, at the read-back 0x38 (all three reserved bits set): the byte `NewHTU21D` writes
to the configuration register is 0xC4, whose bits 3 to 5 are all 0, while the spec asks
for them to be those of the read-back, 0x38. -/
theorem newHTU21D_reserved_bits_lost :
    (NewHTU21D (steadyBus [0x38]) [] ⟨"/dev/i2c-1"⟩ true false true).2
      = [i2c.Event.open 0x40, i2c.Event.readReg 0xE7 1, i2c.Event.writeReg 0xE6 [0xC4]]
    ∧ (0xC4 : Nat) &&& 0x38 = 0
    ∧ (0x38 : Nat) &&& 0x38 = 0x38 := by
  decide

/-- C2, at the read-back 0x38 with options mode1 = true, mode0 = false, heater = true
(the OTP-reload field is false): the bytes `NewHTU21D` puts on the bus are the register
address 0xE7 of the read, then the register address 0xE6 and the configuration byte 0xC4;
the byte the spec describes is 0xBC. -/
theorem newHTU21D_config_byte_differs :
    i2c.bytesWritten (NewHTU21D (steadyBus [0x38]) [] ⟨"/dev/i2c-1"⟩ true false true).2
      = [0xE7, 0xE6, 0xC4]
    ∧ configReg (driverOf ⟨0x40⟩ true false true) 0x38 = 0xC4
    ∧ configRegSpec true false true false 0x38 = 0xBC := by
  decide

end htu21d

/-! ## The checksum -/

namespace crc8

theorem shiftStep_lt (x : Nat) : shiftStep 0x31 x < 256 := by
  unfold shiftStep
  split
  · exact Nat.xor_lt_two_pow (n := 8) (Nat.mod_lt _ (by norm_num)) (by norm_num)
  · exact Nat.mod_lt _ (by norm_num)

theorem tableEntry_lt (x : Nat) : tableEntry 0x31 x < 256 := by
  unfold tableEntry
  rw [show (8 : Nat) = 7 + 1 from rfl, Function.iterate_succ_apply']
  exact shiftStep_lt _

theorem makeTable_getD (p : Params) (i : Nat) (hi : i < 256) :
    (MakeTable p).data.getD i 0 = tableEntry p.Poly i := by
  simp [MakeTable, List.getD_eq_getElem?_getD, List.getElem?_map, List.getElem?_range hi]

set_option maxRecDepth 100000 in
theorem unshift_tableEntry : ∀ s < 256, (unshift 0x31)^[8] (tableEntry 0x31 s) = s := by
  decide!

theorem tableEntry_inj {a b : Nat} (ha : a < 256) (hb : b < 256)
    (h : tableEntry 0x31 a = tableEntry 0x31 b) : a = b := by
  rw [← unshift_tableEntry a ha, ← unshift_tableEntry b hb, h]

theorem and_128_of_lt {y : Nat} (hy : y < 128) : y &&& 128 = 0 := by
  apply Nat.eq_of_testBit_eq
  intro i
  rw [Nat.testBit_and, show (128 : Nat) = 2 ^ 7 from rfl, Nat.testBit_two_pow]
  by_cases h : 7 = i
  · subst h
    simp [Nat.testBit_lt_two_pow (show y < 2 ^ 7 from hy)]
  · simp [h]

theorem shl_xor_low (x y : Nat) (hy : y < 128) :
    ((x ^^^ y) <<< 1) % 256 = ((x <<< 1) % 256) ^^^ (2 * y) := by
  apply Nat.eq_of_testBit_eq
  intro j
  have h2 : 2 * y = y <<< 1 := by simp [Nat.shiftLeft_eq, Nat.mul_comm]
  rw [h2, show (256 : Nat) = 2 ^ 8 from rfl]
  simp only [Nat.testBit_mod_two_pow, Nat.testBit_xor, Nat.testBit_shiftLeft]
  by_cases hj : j < 8
  · simp only [hj, decide_True, Bool.true_and]
    cases decide (1 ≤ j) <;> simp
  · have : y.testBit (j - 1) = false := by
      apply Nat.testBit_lt_two_pow
      calc y < 2 ^ 7 := hy
        _ ≤ 2 ^ (j - 1) := Nat.pow_le_pow_right (by norm_num) (by omega)
    simp [hj, this]

/-- A register shift is additive in the low seven bits of its argument. -/
theorem shiftStep_xor_low (p x y : Nat) (hy : y < 128) :
    shiftStep p (x ^^^ y) = shiftStep p x ^^^ (2 * y) := by
  unfold shiftStep
  have h1 : (x ^^^ y) &&& 0x80 = x &&& 0x80 := by
    rw [Nat.and_xor_distrib_right, and_128_of_lt hy, Nat.xor_zero]
  rw [h1, shl_xor_low x y hy]
  split
  · rw [Nat.xor_assoc, Nat.xor_comm (2 * y) p, ← Nat.xor_assoc]
  · rfl

set_option maxRecDepth 100000 in
theorem bitStep_eq_shiftStep : ∀ s < 256, ∀ m : Bool,
    crc8Spec.bitStep 0x31 s m = shiftStep 0x31 (s ^^^ (if m then 128 else 0)) := by
  decide!

set_option maxRecDepth 100000 in
theorem split_msb : ∀ d < 256, d = (if d.testBit 7 then 128 else 0) ^^^ (d % 128) := by
  decide!

/-- Shifting the register after adding a data byte is the spec's step on the top bit of
the byte, with the rest of the byte still to be added. -/
theorem shiftStep_xor (s d : Nat) (hs : s < 256) (hd : d < 256) :
    shiftStep 0x31 (s ^^^ d)
      = crc8Spec.bitStep 0x31 s (d.testBit 7) ^^^ ((2 * d) % 256) := by
  have h := split_msb d hd
  have hlow : d % 128 < 128 := Nat.mod_lt _ (by norm_num)
  have h2 : (2 * d) % 256 = 2 * (d % 128) := by omega
  rw [h2, bitStep_eq_shiftStep s hs]
  conv => lhs; rw [h]
  rw [← Nat.xor_assoc, shiftStep_xor_low _ _ _ hlow]

theorem bitStep_lt (s : Nat) (m : Bool) : crc8Spec.bitStep 0x31 s m < 256 := by
  unfold crc8Spec.bitStep
  split
  · exact Nat.xor_lt_two_pow (n := 8) (Nat.mod_lt _ (by norm_num)) (by norm_num)
  · exact Nat.mod_lt _ (by norm_num)

theorem iterate_shiftStep_xor (k : Nat) : ∀ s d, s < 256 → d < 256 →
    (shiftStep 0x31)^[k] (s ^^^ d)
      = (crc8Spec.bitsMSB k d).foldl (crc8Spec.bitStep 0x31) s ^^^ ((2 ^ k * d) % 256) := by
  induction k with
  | zero =>
    intro s d _ hd
    simp [crc8Spec.bitsMSB, Nat.mod_eq_of_lt hd]
  | succ k ih =>
    intro s d hs hd
    rw [Function.iterate_succ_apply, shiftStep_xor s d hs hd,
      ih _ _ (bitStep_lt _ _) (Nat.mod_lt _ (by norm_num))]
    have : (2 ^ k * ((2 * d) % 256)) % 256 = (2 ^ (k + 1) * d) % 256 := by
      rw [Nat.mul_mod, Nat.mod_mod, ← Nat.mul_mod, pow_succ, Nat.mul_assoc]
    rw [this]
    rfl

set_option maxRecDepth 100000 in
theorem byteBits_eq_bitsMSB : ∀ b : Byte, crc8Spec.byteBits b = crc8Spec.bitsMSB 8 b.val := by
  decide!

/-- One table lookup is the spec's eight bit steps over the data byte. -/
theorem tableEntry_xor (s : Nat) (b : Byte) (hs : s < 256) :
    tableEntry 0x31 (s ^^^ b.val)
      = (crc8Spec.byteBits b).foldl (crc8Spec.bitStep 0x31) s := by
  unfold tableEntry
  rw [iterate_shiftStep_xor 8 s b.val hs b.isLt, byteBits_eq_bitsMSB]
  have : (2 ^ 8 * b.val) % 256 = 0 := by omega
  rw [this, Nat.xor_zero]

theorem foldl_bits_lt (bits : List Bool) : ∀ s, s < 256 →
    bits.foldl (crc8Spec.bitStep 0x31) s < 256 := by
  induction bits with
  | nil => intro s hs; simpa using hs
  | cons m rest ih => intro s _; exact ih _ (bitStep_lt _ _)

/-- The table-driven update of the register agrees with the spec's bitwise update. -/
theorem update_eq_spec (data : List Byte) : ∀ s, s < 256 →
    Update s data (MakeTable htu21d.crcParams)
      = data.foldl (fun reg b => (crc8Spec.byteBits b).foldl (crc8Spec.bitStep 0x31) reg) s := by
  have hp : (MakeTable htu21d.crcParams).params.RefIn = false := rfl
  unfold Update
  rw [hp]
  simp only [Bool.false_eq_true, if_false]
  induction data with
  | nil => intro s _; rfl
  | cons b rest ih =>
    intro s hs
    have hx : s ^^^ b.val < 256 := Nat.xor_lt_two_pow (n := 8) hs b.isLt
    rw [List.foldl_cons, List.foldl_cons, makeTable_getD _ _ hx]
    have hpoly : htu21d.crcParams.Poly = 0x31 := rfl
    rw [hpoly, tableEntry_xor s b hs]
    exact ih _ (foldl_bits_lt _ _ hs)

/-- The checksum the driver computes is the CRC-8 of the spec. -/
theorem checksum_eq_spec (data : List Byte) :
    Checksum data (MakeTable htu21d.crcParams) = crc8Spec.checksum data := by
  unfold Checksum Complete
  have h1 : (MakeTable htu21d.crcParams).params.RefOut = false := rfl
  have h2 : (MakeTable htu21d.crcParams).params.XorOut = 0 := rfl
  have h3 : (MakeTable htu21d.crcParams).params.Init = 0 := rfl
  rw [h1, h2, h3]
  simp only [Bool.false_eq_true, if_false]
  rw [update_eq_spec data 0 (by norm_num)]
  rfl

end crc8

namespace htu21d

theorem checkCRC_nil (h : HTU21D) : h.checkCRC [] = false := by
  simp [HTU21D.checkCRC]

/-- What `checkCRC` computes on a packet with data bytes `data` and last byte `c`. -/
theorem checkCRC_concat (h : HTU21D) (data : List Byte) (c : Byte) :
    h.checkCRC (data ++ [c]) = decide (c.val = crc8.Checksum data h.crcTable) := by
  unfold HTU21D.checkCRC
  have hlen : (data ++ [c]).length - 1 = data.length := by simp
  have hnot : ¬ (data ++ [c]).length < 1 := by simp
  rw [if_neg hnot, hlen, List.getD_append_right _ _ _ _ (Nat.le_refl _)]
  simp

theorem checkCRC_driverOf (d : i2c.Device) (mode1 mode0 heater : Bool) (data : List Byte)
    (c : Byte) :
    (driverOf d mode1 mode0 heater).checkCRC (data ++ [c])
      = decide (c.val = crc8Spec.checksum data) := by
  rw [checkCRC_concat]
  have : (driverOf d mode1 mode0 heater).crcTable = crc8.MakeTable crcParams := rfl
  rw [this, crc8.checksum_eq_spec]

theorem spec_checksum_lt (data : List Byte) : crc8Spec.checksum data < 256 := by
  unfold crc8Spec.checksum
  rw [Nat.xor_zero]
  have key : ∀ (l : List Byte) (s : Nat), s < 256 →
      l.foldl (fun reg b => (crc8Spec.byteBits b).foldl (crc8Spec.bitStep 0x31) reg) s < 256 := by
    intro l
    induction l with
    | nil => intro s hs; simpa using hs
    | cons b rest ih => intro s hs; exact ih _ (crc8.foldl_bits_lt _ _ hs)
  exact key data 0 (by norm_num)

/-- C3. `checkCRC` rejects the empty packet; on a non-empty packet it accepts exactly when
the last byte is the CRC-8 of the spec (polynomial 0x31, initial value 0, no reflection,
XOR-out 0, most significant bit first) of the bytes before it; so every byte sequence
followed by its checksum is accepted, for instance `[0xDC, 0x79]`. -/
theorem checkCRC_spec (d : i2c.Device) (mode1 mode0 heater : Bool) :
    (driverOf d mode1 mode0 heater).checkCRC [] = false
    ∧ (∀ (p : List Byte) (hp : p ≠ []),
        (driverOf d mode1 mode0 heater).checkCRC p = true
          ↔ (p.getLast hp).val = crc8Spec.checksum p.dropLast)
    ∧ (∀ data : List Byte, crc8Spec.checksum data < 256
        ∧ (driverOf d mode1 mode0 heater).checkCRC
            (data ++ [Fin.ofNat (crc8Spec.checksum data)]) = true)
    ∧ (driverOf d mode1 mode0 heater).checkCRC [0xDC, 0x79] = true := by
  refine ⟨checkCRC_nil _, ?_, ?_, ?_⟩
  · intro p hp
    conv => lhs; rw [← List.dropLast_append_getLast hp]
    rw [checkCRC_driverOf]
    simp
  · intro data
    refine ⟨spec_checksum_lt data, ?_⟩
    rw [checkCRC_driverOf]
    simp [Fin.ofNat, Nat.mod_eq_of_lt (spec_checksum_lt data)]
  · rw [show ([0xDC, 0x79] : List Byte) = [0xDC] ++ [0x79] from rfl, checkCRC_driverOf]
    decide

end htu21d

namespace crc8Spec

/-- The spec's update of the register by one data byte. -/
theorem byteStep_eq (s : Nat) (b : Byte) (hs : s < 256) :
    (byteBits b).foldl (bitStep 0x31) s = crc8.tableEntry 0x31 (s ^^^ b.val) :=
  (crc8.tableEntry_xor s b hs).symm

theorem byteStep_inj_state {s1 s2 : Nat} (b : Byte) (h1 : s1 < 256) (h2 : s2 < 256)
    (h : (byteBits b).foldl (bitStep 0x31) s1 = (byteBits b).foldl (bitStep 0x31) s2) :
    s1 = s2 := by
  rw [byteStep_eq s1 b h1, byteStep_eq s2 b h2] at h
  have hx := crc8.tableEntry_inj (Nat.xor_lt_two_pow (n := 8) h1 b.isLt)
    (Nat.xor_lt_two_pow (n := 8) h2 b.isLt) h
  exact Nat.xor_left_injective hx

theorem byteStep_inj_byte {s : Nat} (b1 b2 : Byte) (hs : s < 256)
    (h : (byteBits b1).foldl (bitStep 0x31) s = (byteBits b2).foldl (bitStep 0x31) s) :
    b1 = b2 := by
  rw [byteStep_eq s b1 hs, byteStep_eq s b2 hs] at h
  have hx := crc8.tableEntry_inj (Nat.xor_lt_two_pow (n := 8) hs b1.isLt)
    (Nat.xor_lt_two_pow (n := 8) hs b2.isLt) h
  exact Fin.ext (Nat.xor_right_inj.mp hx)

/-- Two different registers stay different whatever data follows. -/
theorem foldl_inj_state (data : List Byte) : ∀ s1 s2 : Nat, s1 < 256 → s2 < 256 →
    data.foldl (fun reg b => (byteBits b).foldl (bitStep 0x31) reg) s1
      = data.foldl (fun reg b => (byteBits b).foldl (bitStep 0x31) reg) s2 → s1 = s2 := by
  induction data with
  | nil => intro s1 s2 _ _ h; simpa using h
  | cons b rest ih =>
    intro s1 s2 h1 h2 h
    rw [List.foldl_cons, List.foldl_cons] at h
    exact byteStep_inj_state b h1 h2
      (ih _ _ (crc8.foldl_bits_lt _ _ h1) (crc8.foldl_bits_lt _ _ h2) h)

/-- Replacing one data byte by a different byte changes the register. -/
theorem foldl_set_ne (data : List Byte) : ∀ (s j : Nat) (x : Byte), s < 256 →
    j < data.length → x ≠ data.getD j 0 →
    (data.set j x).foldl (fun reg b => (byteBits b).foldl (bitStep 0x31) reg) s
      ≠ data.foldl (fun reg b => (byteBits b).foldl (bitStep 0x31) reg) s := by
  induction data with
  | nil => intro s j x _ hj; simp at hj
  | cons b rest ih =>
    intro s j x hs hj hx
    cases j with
    | zero =>
      rw [List.set_cons_zero, List.foldl_cons, List.foldl_cons]
      intro h
      have h1 := foldl_inj_state rest _ _ (crc8.foldl_bits_lt _ _ hs)
        (crc8.foldl_bits_lt _ _ hs) h
      exact hx (by simpa using byteStep_inj_byte x b hs h1)
    | succ j =>
      rw [List.set_cons_succ, List.foldl_cons, List.foldl_cons]
      apply ih _ j x (crc8.foldl_bits_lt _ _ hs)
      · simpa using hj
      · simpa using hx

theorem checksum_set_ne (data : List Byte) (j : Nat) (x : Byte) (hj : j < data.length)
    (hx : x ≠ data.getD j 0) : checksum (data.set j x) ≠ checksum data := by
  unfold checksum
  rw [Nat.xor_zero, Nat.xor_zero]
  exact foldl_set_ne data 0 j x (by norm_num) hj hx

end crc8Spec

set_option maxRecDepth 100000 in
theorem flipped_byte_ne : ∀ (y : Byte) (k : Fin 8),
    (Fin.ofNat (y.val ^^^ (1 <<< k.val)) : Byte) ≠ y := by
  decide!

theorem flipped_ne (y : Byte) (i : Nat) :
    (Fin.ofNat (y.val ^^^ (1 <<< (i % 8))) : Byte) ≠ y :=
  flipped_byte_ne y ⟨i % 8, Nat.mod_lt _ (by norm_num)⟩

namespace htu21d

/-- C4. On a non-empty packet that `checkCRC` accepts, flipping any single bit, in a data
byte or in the trailing checksum byte, gives a packet that `checkCRC` rejects. -/
theorem checkCRC_flipBit (d : i2c.Device) (mode1 mode0 heater : Bool) (p : List Byte)
    (hp : p ≠ []) (hc : (driverOf d mode1 mode0 heater).checkCRC p = true)
    (i : Nat) (hi : i < 8 * p.length) :
    (driverOf d mode1 mode0 heater).checkCRC (flipBit p i) = false := by
  obtain ⟨data, c, rfl⟩ : ∃ data c, p = data ++ [c] :=
    ⟨p.dropLast, p.getLast hp, (List.dropLast_append_getLast hp).symm⟩
  rw [checkCRC_driverOf] at hc
  have hc : c.val = crc8Spec.checksum data := by simpa using hc
  have hj : i / 8 ≤ data.length := by
    have : i < 8 * (data.length + 1) := by simpa using hi
    omega
  unfold flipBit
  rcases Nat.lt_or_eq_of_le hj with hlt | heq
  · rw [List.getD_append _ _ _ _ hlt, List.set_append_left _ _ hlt, checkCRC_driverOf]
    have := crc8Spec.checksum_set_ne data (i / 8) _ hlt (flipped_ne (data.getD (i / 8) 0) i)
    rw [hc]
    exact decide_eq_false (fun h => this h.symm)
  · rw [List.getD_append_right _ _ _ _ (Nat.le_of_eq heq.symm),
      List.set_append_right _ _ (Nat.le_of_eq heq.symm), heq]
    simp only [Nat.sub_self, List.getD_cons_zero, List.set_cons_zero]
    rw [checkCRC_driverOf, ← hc]
    have := flipped_ne c i
    simpa [Fin.ext_iff] using this

/-- C4 at the packet `[0xDC, 0x79]` with bit 5 of the first byte flipped. -/
theorem checkCRC_flipBit_witness :
    (driverOf ⟨0x40⟩ false false true).checkCRC [0xDC, 0x79] = true
    ∧ (driverOf ⟨0x40⟩ false false true).checkCRC (flipBit [0xDC, 0x79] 5) = false :=
  ⟨by decide, checkCRC_flipBit ⟨0x40⟩ false false true [0xDC, 0x79] (by simp) (by decide) 5
    (by decide)⟩

end htu21d

/-! ## The measurement protocol -/

namespace i2c

theorem fill_length (buf delivered : List Byte) : (fill buf delivered).length = buf.length := by
  unfold fill
  rw [List.length_append, List.length_take, List.length_drop]
  omega

end i2c

namespace htu21d

/-- The sample `read` composes from the first two bytes is `256 * b0 + b1`. -/
theorem sample_eq (b0 b1 : Byte) :
    ((b0.val <<< 8) % 2 ^ 64) ||| (b1.val &&& 0xFF) = 256 * b0.val + b1.val := by
  have h0 := b0.isLt
  have h1 := b1.isLt
  have e1 : b1.val &&& 0xFF = b1.val := by
    rw [show (0xFF : Nat) = 2 ^ 8 - 1 from rfl, Nat.and_pow_two_sub_one_eq_mod]
    exact Nat.mod_eq_of_lt h1
  have e2 : (b0.val <<< 8) % 2 ^ 64 = 2 ^ 8 * b0.val := by
    rw [Nat.shiftLeft_eq, Nat.mul_comm]
    apply Nat.mod_eq_of_lt
    omega
  rw [e1, e2, ← Nat.mul_add_lt_is_or (show b1.val < 2 ^ 8 from h1)]

/-- A failed command write ends `read` with sample 0 and the transport's error, before
any bus read. -/
theorem read_of_write_error (h : HTU21D) (bus : i2c.Bus) (t : i2c.Trace) (cmd : Byte)
    (backoff : Nat) (e : GoError)
    (hw : (bus.respond (t ++ [i2c.Event.write [0xF5]])).2 = some e) :
    h.read bus t cmd backoff = ((0, some e), t ++ [i2c.Event.write [0xF5]]) := by
  have hcmd : ([Fin.ofNat htuMeasHumd] : List Byte) = [0xF5] := rfl
  simp only [HTU21D.read, i2c.Device.Write, hcmd, hw]

/-- An error on the bus read ends `read` with sample 0 and the transport's error. -/
theorem read_of_read_error (h : HTU21D) (bus : i2c.Bus) (t : i2c.Trace) (cmd : Byte)
    (backoff : Nat) (e : GoError)
    (hw : (bus.respond (t ++ [i2c.Event.write [0xF5]])).2 = none)
    (hr : (bus.respond (readTrace t backoff)).2 = some e) :
    h.read bus t cmd backoff = ((0, some e), readTrace t backoff) := by
  have hcmd : ([Fin.ofNat htuMeasHumd] : List Byte) = [0xF5] := rfl
  unfold readTrace at hr ⊢
  simp only [HTU21D.read, i2c.Device.Write, i2c.Device.Read, hcmd, hw, hr, List.replicate,
    List.length_cons, List.length_nil]
  simp

/-- Without a transport error `read` decodes whatever the 3-byte buffer holds. -/
theorem read_of_no_error (h : HTU21D) (bus : i2c.Bus) (t : i2c.Trace) (cmd : Byte)
    (backoff : Nat)
    (hw : (bus.respond (t ++ [i2c.Event.write [0xF5]])).2 = none)
    (hr : (bus.respond (readTrace t backoff)).2 = none) :
    h.read bus t cmd backoff
      = ((256 * ((i2c.fill [0, 0, 0] (bus.respond (readTrace t backoff)).1).getD 0 0).val
            + ((i2c.fill [0, 0, 0] (bus.respond (readTrace t backoff)).1).getD 1 0).val,
          if h.checkCRC (i2c.fill [0, 0, 0] (bus.respond (readTrace t backoff)).1) then none
          else some checksumMismatch),
        readTrace t backoff) := by
  have hcmd : ([Fin.ofNat htuMeasHumd] : List Byte) = [0xF5] := rfl
  have hlen := i2c.fill_length [0, 0, 0] (bus.respond (readTrace t backoff)).1
  unfold readTrace at hr hlen ⊢
  simp only [HTU21D.read, i2c.Device.Write, i2c.Device.Read, hcmd, hw, hr, List.replicate,
    List.length_cons, List.length_nil, hlen, sample_eq]
  simp only [ne_eq, not_true_eq_false, or_self, if_false, Nat.reduceAdd]
  split <;> rfl

/-- C5. When the command write and the bus read both succeed and leave the bytes `b0`,
`b1`, `b2` in the buffer, `read` returns the sample `256 * b0 + b1`, a value below 65536,
with no error if `checkCRC [b0, b1, b2]` holds and with the checksum-mismatch error, and
the same sample, if it does not. -/
theorem read_sample (h : HTU21D) (bus : i2c.Bus) (t : i2c.Trace) (cmd : Byte)
    (backoff : Nat) (b0 b1 b2 : Byte)
    (hw : (bus.respond (t ++ [i2c.Event.write [0xF5]])).2 = none)
    (hr : (bus.respond (readTrace t backoff)).2 = none)
    (hb : i2c.fill [0, 0, 0] (bus.respond (readTrace t backoff)).1 = [b0, b1, b2]) :
    (h.read bus t cmd backoff).1.1 = 256 * b0.val + b1.val
    ∧ 256 * b0.val + b1.val < 65536
    ∧ ((h.read bus t cmd backoff).1.2 = none ↔ h.checkCRC [b0, b1, b2] = true)
    ∧ (h.checkCRC [b0, b1, b2] = false →
        (h.read bus t cmd backoff).1 = (256 * b0.val + b1.val, some checksumMismatch)) := by
  rw [read_of_no_error h bus t cmd backoff hw hr, hb]
  have h0 := b0.isLt
  have h1 := b1.isLt
  refine ⟨rfl, by omega, ?_, ?_⟩
  · cases hcrc : h.checkCRC [b0, b1, b2] <;> simp
  · intro hcrc
    simp [hcrc]

/-- C5 at a transport that answers the read with `[0x12, 0x34, 0x56]`, a packet with a
wrong checksum byte: the sample is 0x1234 and the error is the checksum mismatch. -/
theorem read_sample_witness :
    ((driverOf ⟨0x40⟩ false false true).read (steadyBus [0x12, 0x34, 0x56]) [] 0xF5
        75000000).1.1 = 256 * 0x12 + 0x34
    ∧ (driverOf ⟨0x40⟩ false false true).checkCRC [0x12, 0x34, 0x56] = false
    ∧ ((driverOf ⟨0x40⟩ false false true).read (steadyBus [0x12, 0x34, 0x56]) [] 0xF5
        75000000).1 = (256 * 0x12 + 0x34, some checksumMismatch) :=
  have key := read_sample (driverOf ⟨0x40⟩ false false true) (steadyBus [0x12, 0x34, 0x56]) []
    0xF5 75000000 0x12 0x34 0x56 rfl rfl rfl
  ⟨key.1, by decide, key.2.2.2 (by decide)⟩

/-- The length test of `read` alone does not see a short delivery: on a transport that
delivers two zero bytes and reports no error, which `readsFull` excludes, the buffer keeps
its three bytes and is decoded. -/
theorem read_short_delivery_silent_zero :
    (steadyBus [0x00, 0x00]).respond (readTrace [] 75000000) = ([0x00, 0x00], none)
    ∧ ((driverOf ⟨0x40⟩ false false true).read (steadyBus [0x00, 0x00]) [] 0xF5
        75000000).1 = (0, none) := by
  refine ⟨rfl, ?_⟩
  rw [read_of_no_error _ _ _ _ _ rfl rfl]
  decide

/-- C6. On a transport that fills the buffer whenever it reports no error: if the command
write fails, `read` returns sample 0 and that error, and its requests end with the write,
so no bus read is issued; if the bus read reports an error, or delivers fewer than 3
bytes, `read` returns sample 0 and the transport's error.  In none of these cases is
sample 0 returned with a nil error. -/
theorem read_transport_failure (h : HTU21D) (bus : i2c.Bus) (t : i2c.Trace) (cmd : Byte)
    (backoff : Nat) (hfull : bus.readsFull) :
    (∀ e, (bus.respond (t ++ [i2c.Event.write [0xF5]])).2 = some e →
      h.read bus t cmd backoff = ((0, some e), t ++ [i2c.Event.write [0xF5]]))
    ∧ ((bus.respond (t ++ [i2c.Event.write [0xF5]])).2 = none →
      ∀ e, (bus.respond (readTrace t backoff)).2 = some e →
      h.read bus t cmd backoff = ((0, some e), readTrace t backoff))
    ∧ ((bus.respond (t ++ [i2c.Event.write [0xF5]])).2 = none →
      (bus.respond (readTrace t backoff)).1.length < 3 →
      ∃ e, (bus.respond (readTrace t backoff)).2 = some e
        ∧ h.read bus t cmd backoff = ((0, some e), readTrace t backoff))
    ∧ (((bus.respond (t ++ [i2c.Event.write [0xF5]])).2 ≠ none
        ∨ (bus.respond (readTrace t backoff)).2 ≠ none
        ∨ (bus.respond (readTrace t backoff)).1.length < 3) →
      (h.read bus t cmd backoff).1.1 = 0 ∧ (h.read bus t cmd backoff).1.2 ≠ none) := by
  have hshort : (bus.respond (readTrace t backoff)).1.length < 3 →
      ∃ e, (bus.respond (readTrace t backoff)).2 = some e := by
    intro hlen
    cases hr : (bus.respond (readTrace t backoff)).2 with
    | some e => exact ⟨e, rfl⟩
    | none =>
      have := hfull (t ++ [i2c.Event.write [0xF5]] ++ [i2c.Event.sleep backoff]) 3 hr
      unfold readTrace at hlen
      omega
  refine ⟨fun e hw => read_of_write_error h bus t cmd backoff e hw,
    fun hw e hr => read_of_read_error h bus t cmd backoff e hw hr, ?_, ?_⟩
  · intro hw hlen
    obtain ⟨e, he⟩ := hshort hlen
    exact ⟨e, he, read_of_read_error h bus t cmd backoff e hw he⟩
  · intro hcase
    cases hw : (bus.respond (t ++ [i2c.Event.write [0xF5]])).2 with
    | some e =>
      rw [read_of_write_error h bus t cmd backoff e hw]
      exact ⟨rfl, by simp⟩
    | none =>
      have hre : ∃ e, (bus.respond (readTrace t backoff)).2 = some e := by
        rcases hcase with hc | hc | hc
        · exact absurd hw hc
        · exact Option.ne_none_iff_exists'.mp hc
        · exact hshort hc
      obtain ⟨e, he⟩ := hre
      rw [read_of_read_error h bus t cmd backoff e hw he]
      exact ⟨rfl, by simp⟩

/-- The transport `shortReadBus` reports every bus read as failed, so it fills the buffer
whenever it reports no error. -/
theorem shortReadBus_readsFull : shortReadBus.readsFull := by
  intro t n hnone
  simp [shortReadBus] at hnone

/-- C6 at a transport that delivers two of the three bytes and reports an error: sample 0
with that error. -/
theorem read_transport_failure_witness :
    shortReadBus.readsFull
    ∧ (shortReadBus.respond (readTrace [] 75000000)).1.length < 3
    ∧ (driverOf ⟨0x40⟩ false false true).read shortReadBus [] 0xF5 75000000
        = ((0, some (GoError.transport 1)), readTrace [] 75000000) :=
  ⟨shortReadBus_readsFull, by decide,
    (read_transport_failure (driverOf ⟨0x40⟩ false false true) shortReadBus [] 0xF5 75000000
      shortReadBus_readsFull).2.1 rfl (GoError.transport 1) rfl⟩

end htu21d

namespace htu21d

/-- The requests of one `read` end after the command write or after the bus read. -/
theorem read_trace (h : HTU21D) (bus : i2c.Bus) (t : i2c.Trace) (cmd : Byte) (backoff : Nat) :
    (h.read bus t cmd backoff).2 = t ++ [i2c.Event.write [0xF5]]
    ∨ (h.read bus t cmd backoff).2
        = t ++ [i2c.Event.write [0xF5], i2c.Event.sleep backoff, i2c.Event.read 3] := by
  have hrt : readTrace t backoff
      = t ++ [i2c.Event.write [0xF5], i2c.Event.sleep backoff, i2c.Event.read 3] := by
    simp [readTrace]
  cases hw : (bus.respond (t ++ [i2c.Event.write [0xF5]])).2 with
  | some e => left; rw [read_of_write_error h bus t cmd backoff e hw]
  | none =>
    right
    cases hr : (bus.respond (readTrace t backoff)).2 with
    | some e => rw [read_of_read_error h bus t cmd backoff e hw hr, hrt]
    | none => rw [read_of_no_error h bus t cmd backoff hw hr, hrt]

/-- The bytes one `read` puts on the bus. -/
theorem read_bytesWritten (h : HTU21D) (bus : i2c.Bus) (t : i2c.Trace) (cmd : Byte)
    (backoff : Nat) :
    ∃ suffix, (h.read bus t cmd backoff).2 = t ++ suffix ∧ i2c.bytesWritten suffix = [0xF5] := by
  rcases read_trace h bus t cmd backoff with hx | hx
  · exact ⟨_, hx, rfl⟩
  · exact ⟨_, hx, rfl⟩

/-- How `Measure` is made of its two reads. -/
theorem measure_cases (h : HTU21D) (bus : i2c.Bus) (t : i2c.Trace) :
    (∀ raw1 e t1, h.read bus t 0xF5 75000000 = ((raw1, some e), t1) →
      h.Measure bus t = ((⟨math.NaN, math.NaN, math.NaN⟩, some e), t1))
    ∧ (∀ raw1 t1 raw2 e t2, h.read bus t 0xF5 75000000 = ((raw1, none), t1) →
      h.read bus t1 0xF3 75000000 = ((raw2, some e), t2) →
      h.Measure bus t = ((⟨h.asHumidity raw1, math.NaN, math.NaN⟩, some e), t2))
    ∧ (∀ raw1 t1 raw2 t2, h.read bus t 0xF5 75000000 = ((raw1, none), t1) →
      h.read bus t1 0xF3 75000000 = ((raw2, none), t2) →
      h.Measure bus t
        = ((⟨h.asHumidity raw1, h.asTemp raw2,
              h.dewpoint (h.asTemp raw2) (h.asHumidity raw1)⟩, none), t2)) := by
  have c1 : (Fin.ofNat htuMeasHumd : Byte) = 0xF5 := rfl
  have c2 : (Fin.ofNat htuMeasTemp : Byte) = 0xF3 := rfl
  have c3 : 75 * time.Millisecond = 75000000 := rfl
  refine ⟨?_, ?_, ?_⟩
  · intro raw1 e t1 h1
    simp only [HTU21D.Measure, c1, c3, h1]
  · intro raw1 t1 raw2 e t2 h1 h2
    simp only [HTU21D.Measure, c1, c2, c3, h1, h2]
  · intro raw1 t1 raw2 t2 h1 h2
    simp only [HTU21D.Measure, c1, c2, c3, h1, h2]

/-- C8. `Measure` reports an error exactly when its first read fails or, the first having
succeeded, its second read fails.  If the first read fails the result is all NaN and the
requests end with those of the first read; if only the second fails, Humidity is
`asHumidity raw1` and Temperature and Dewpoint are NaN; if both succeed the result is
`asHumidity raw1`, `asTemp raw2` and the dew point of these two, with no error. -/
theorem measure_outcomes (h : HTU21D) (bus : i2c.Bus) (t : i2c.Trace) :
    ((h.Measure bus t).1.2 ≠ none ↔
      ((h.read bus t 0xF5 75000000).1.2 ≠ none
        ∨ ((h.read bus t 0xF5 75000000).1.2 = none
          ∧ (h.read bus (h.read bus t 0xF5 75000000).2 0xF3 75000000).1.2 ≠ none)))
    ∧ (∀ raw1 e t1, h.read bus t 0xF5 75000000 = ((raw1, some e), t1) →
      h.Measure bus t = ((⟨math.NaN, math.NaN, math.NaN⟩, some e), t1))
    ∧ (∀ raw1 t1 raw2 e t2, h.read bus t 0xF5 75000000 = ((raw1, none), t1) →
      h.read bus t1 0xF3 75000000 = ((raw2, some e), t2) →
      h.Measure bus t = ((⟨h.asHumidity raw1, math.NaN, math.NaN⟩, some e), t2))
    ∧ (∀ raw1 t1 raw2 t2, h.read bus t 0xF5 75000000 = ((raw1, none), t1) →
      h.read bus t1 0xF3 75000000 = ((raw2, none), t2) →
      h.Measure bus t
        = ((⟨h.asHumidity raw1, h.asTemp raw2,
              h.dewpoint (h.asTemp raw2) (h.asHumidity raw1)⟩, none), t2)) := by
  obtain ⟨m1, m2, m3⟩ := measure_cases h bus t
  refine ⟨?_, m1, m2, m3⟩
  rcases h1 : h.read bus t 0xF5 75000000 with ⟨⟨raw1, e1⟩, t1⟩
  cases e1 with
  | some e => simp [m1 raw1 e t1 h1]
  | none =>
    rcases h2 : h.read bus t1 0xF3 75000000 with ⟨⟨raw2, e2⟩, t2⟩
    cases e2 with
    | some e => simp [m2 raw1 t1 raw2 e t2 h1 h2]
    | none => simp [m3 raw1 t1 raw2 t2 h1 h2]

/-- A `read` that returns no error has issued the command write, the pause and the bus
read. -/
theorem read_trace_of_ok (h : HTU21D) (bus : i2c.Bus) (t : i2c.Trace) (cmd : Byte)
    (backoff : Nat) (hok : (h.read bus t cmd backoff).1.2 = none) :
    (h.read bus t cmd backoff).2
      = t ++ [i2c.Event.write [0xF5], i2c.Event.sleep backoff, i2c.Event.read 3] := by
  have hrt : readTrace t backoff
      = t ++ [i2c.Event.write [0xF5], i2c.Event.sleep backoff, i2c.Event.read 3] := by
    simp [readTrace]
  cases hw : (bus.respond (t ++ [i2c.Event.write [0xF5]])).2 with
  | some e =>
    rw [read_of_write_error h bus t cmd backoff e hw] at hok
    simp at hok
  | none =>
    cases hr : (bus.respond (readTrace t backoff)).2 with
    | some e =>
      rw [read_of_read_error h bus t cmd backoff e hw hr] at hok
      simp at hok
    | none => rw [read_of_no_error h bus t cmd backoff hw hr, hrt]

/-- The requests of `Measure`: those of the humidity reading alone when it fails, else
those of the humidity reading followed by those of the temperature reading. -/
theorem measure_trace (h : HTU21D) (bus : i2c.Bus) (t : i2c.Trace) :
    ((h.read bus t 0xF5 75000000).1.2 ≠ none
      ∧ ((h.Measure bus t).2 = t ++ [i2c.Event.write [0xF5]]
        ∨ (h.Measure bus t).2
            = t ++ [i2c.Event.write [0xF5], i2c.Event.sleep 75000000, i2c.Event.read 3]))
    ∨ ((h.read bus t 0xF5 75000000).1.2 = none
      ∧ ((h.Measure bus t).2
            = t ++ [i2c.Event.write [0xF5], i2c.Event.sleep 75000000, i2c.Event.read 3]
                ++ [i2c.Event.write [0xF5]]
        ∨ (h.Measure bus t).2
            = t ++ [i2c.Event.write [0xF5], i2c.Event.sleep 75000000, i2c.Event.read 3]
                ++ [i2c.Event.write [0xF5], i2c.Event.sleep 75000000, i2c.Event.read 3])) := by
  obtain ⟨m1, m2, m3⟩ := measure_cases h bus t
  have htr1 := read_trace h bus t 0xF5 75000000
  have hok1 := read_trace_of_ok h bus t 0xF5 75000000
  rcases h1 : h.read bus t 0xF5 75000000 with ⟨⟨raw1, e1⟩, t1⟩
  rw [h1] at htr1 hok1
  simp only at htr1 hok1
  cases e1 with
  | some e =>
    left
    refine ⟨by simp, ?_⟩
    rw [m1 raw1 e t1 h1]
    exact htr1
  | none =>
    right
    refine ⟨rfl, ?_⟩
    have ht1 := hok1 rfl
    have htr2 := read_trace h bus t1 0xF3 75000000
    rcases h2 : h.read bus t1 0xF3 75000000 with ⟨⟨raw2, e2⟩, t2⟩
    rw [h2] at htr2
    simp only at htr2
    have hm : (h.Measure bus t).2 = t2 := by
      cases e2 with
      | some e => rw [m2 raw1 t1 raw2 e t2 h1 h2]
      | none => rw [m3 raw1 t1 raw2 t2 h1 h2]
    rw [hm]
    rw [ht1] at htr2
    exact htr2

/-- C9. Whatever `cmd` and `backoff` are, the bytes `read` puts on the bus are the single
byte 0xF5, and its requests and result do not depend on `cmd`.  `Measure` issues the write
of 0xF5 for its humidity reading and, when that reading succeeds, the write of 0xF5 again
for its temperature reading: the bytes it puts on the bus are `[0xF5]` or `[0xF5, 0xF5]`,
and never 0xF3. -/
theorem read_ignores_cmd (h : HTU21D) (bus : i2c.Bus) (t : i2c.Trace) (backoff : Nat) :
    (∀ cmd : Byte, ∃ suffix, (h.read bus t cmd backoff).2 = t ++ suffix
      ∧ i2c.bytesWritten suffix = [0xF5])
    ∧ (∀ cmd1 cmd2 : Byte, h.read bus t cmd1 backoff = h.read bus t cmd2 backoff)
    ∧ (∃ suffix, (h.Measure bus t).2 = t ++ suffix
      ∧ (∀ x ∈ i2c.bytesWritten suffix, x = 0xF5)
      ∧ (0xF3 : Byte) ∉ i2c.bytesWritten suffix)
    ∧ ((h.read bus t 0xF5 75000000).1.2 ≠ none →
      ∃ suffix, (h.Measure bus t).2 = t ++ suffix
        ∧ suffix.head? = some (i2c.Event.write [0xF5])
        ∧ i2c.bytesWritten suffix = [0xF5])
    ∧ ((h.read bus t 0xF5 75000000).1.2 = none →
      ∃ s2, (h.Measure bus t).2
          = t ++ [i2c.Event.write [0xF5], i2c.Event.sleep 75000000, i2c.Event.read 3] ++ s2
        ∧ s2.head? = some (i2c.Event.write [0xF5])
        ∧ i2c.bytesWritten s2 = [0xF5]
        ∧ i2c.bytesWritten
            ([i2c.Event.write [0xF5], i2c.Event.sleep 75000000, i2c.Event.read 3] ++ s2)
          = [0xF5, 0xF5]) := by
  refine ⟨fun cmd => read_bytesWritten h bus t cmd backoff, fun _ _ => rfl, ?_, ?_, ?_⟩
  · have one : ∀ l : i2c.Trace, i2c.bytesWritten l = [0xF5] →
        (∀ x ∈ i2c.bytesWritten l, x = 0xF5) ∧ (0xF3 : Byte) ∉ i2c.bytesWritten l := by
      intro l hl
      rw [hl]
      exact ⟨by simp, by decide⟩
    have two : ∀ l : i2c.Trace, i2c.bytesWritten l = [0xF5, 0xF5] →
        (∀ x ∈ i2c.bytesWritten l, x = 0xF5) ∧ (0xF3 : Byte) ∉ i2c.bytesWritten l := by
      intro l hl
      rw [hl]
      exact ⟨by simp, by decide⟩
    rcases measure_trace h bus t with ⟨_, hm | hm⟩ | ⟨_, hm | hm⟩
    · exact ⟨_, hm, one _ rfl⟩
    · exact ⟨_, hm, one _ rfl⟩
    · rw [List.append_assoc] at hm
      exact ⟨_, hm, two _ rfl⟩
    · rw [List.append_assoc] at hm
      exact ⟨_, hm, two _ rfl⟩
  · intro hfail
    rcases measure_trace h bus t with ⟨_, hm | hm⟩ | ⟨hok, _⟩
    · exact ⟨_, hm, rfl, rfl⟩
    · exact ⟨_, hm, rfl, rfl⟩
    · exact absurd hok hfail
  · intro hok
    rcases measure_trace h bus t with ⟨hfail, _⟩ | ⟨_, hm | hm⟩
    · exact absurd hok hfail
    · exact ⟨_, hm, rfl, rfl, rfl⟩
    · exact ⟨_, hm, rfl, rfl, rfl⟩

end htu21d

/-! ## The station -/

namespace wxstation

/-- C7. `Station.Measure` returns a nil error whatever the humidity driver does.  If the
driver's `Measure` returns an error, all five fields of the reading are NaN, whatever the
driver's partial result holds; if it succeeds, Humidity, HumidityT and Dewpoint are the
driver's Humidity, Temperature and Dewpoint. -/
theorem station_measure (s : Station) (bus : i2c.Bus) (t : i2c.Trace) :
    (s.Measure bus t).1.2 = none
    ∧ (∀ rh e t1, s.rh.Measure bus t = ((rh, some e), t1) →
      (s.Measure bus t).1.1 = ⟨math.NaN, math.NaN, math.NaN, math.NaN, math.NaN⟩)
    ∧ (∀ rh t1, s.rh.Measure bus t = ((rh, none), t1) →
      (s.Measure bus t).1.1.Humidity = rh.Humidity
      ∧ (s.Measure bus t).1.1.HumidityT = rh.Temperature
      ∧ (s.Measure bus t).1.1.Dewpoint = rh.Dewpoint) := by
  refine ⟨?_, ?_, ?_⟩
  · rcases hm : s.rh.Measure bus t with ⟨⟨rh, e⟩, t1⟩
    cases e <;> simp only [Station.Measure, hm]
  · intro rh e t1 hm
    simp only [Station.Measure, hm, Measurement.clear]
  · intro rh t1 hm
    simp only [Station.Measure, hm, Measurement.clear, and_self]

end wxstation

/-! ## The dew point over the real numbers -/

namespace htu21d.overReals

/-- C10. Read over the real numbers, the dew point at 100 % relative humidity is the
ambient temperature, for every temperature `T` with `T + 235.66 ≠ 0`; in particular the two
differ by at most 0.01. -/
theorem dewpoint_saturated (T : ℝ) (hT : T + 235.66 ≠ 0) :
    dewpoint T 100 = T ∧ |dewpoint T 100 - T| ≤ 0.01 := by
  have key : dewpoint T 100 = T := by
    unfold dewpoint partialPressure a b c
    have h1 : (100 : ℝ) * (10.0 : ℝ) ^ ((8.1332 : ℝ) - (1762.39 : ℝ) / (T + (235.66 : ℝ)))
        / 100.00 = (10 : ℝ) ^ ((8.1332 : ℝ) - (1762.39 : ℝ) / (T + (235.66 : ℝ))) := by
      norm_num
    rw [h1, Real.logb_rpow (by norm_num) (by norm_num)]
    field_simp
    ring
  refine ⟨key, ?_⟩
  rw [key]
  norm_num

/-- C10 at an ambient temperature of 20 degrees. -/
theorem dewpoint_saturated_witness :
    dewpoint 20 100 = 20 ∧ |dewpoint 20 100 - 20| ≤ 0.01 :=
  dewpoint_saturated 20 (by norm_num)

end htu21d.overReals

/-! ## The unit conversions over the rational numbers -/

namespace htu21d.overRationals

/-- C11. With exact rational arithmetic `asTemp raw = 175.72 * raw / 65536 - 46.85` and
`asHumidity raw = 125.0 * raw / 65536 - 6.0` for every raw sample, with no clamping: both
grow with every step of the sample, below the sensor's range at 0 (-46.85 and -6.0) and
above it at 65536 (128.87 and 119.0). -/
theorem conversions_exact :
    (∀ raw : Nat, asTemp raw = 175.72 * (raw : ℚ) / 65536 - 46.85)
    ∧ (∀ raw : Nat, asHumidity raw = 125.0 * (raw : ℚ) / 65536 - 6.0)
    ∧ asTemp 0 = -46.85 ∧ asHumidity 0 = -6.0
    ∧ asTemp 65536 = 128.87 ∧ asHumidity 65536 = 119.0
    ∧ (∀ raw : Nat, asTemp raw < asTemp (raw + 1))
    ∧ (∀ raw : Nat, asHumidity raw < asHumidity (raw + 1)) := by
  refine ⟨?_, ?_, ?_, ?_, ?_, ?_, ?_, ?_⟩
  · intro raw; unfold asTemp; norm_num
  · intro raw; unfold asHumidity; norm_num
  · unfold asTemp; norm_num
  · unfold asHumidity; norm_num
  · unfold asTemp; norm_num
  · unfold asHumidity; norm_num
  · intro raw; unfold asTemp; push_cast; linarith
  · intro raw; unfold asHumidity; push_cast; linarith

end htu21d.overRationals

/-! ## The station's pressure fields -/

namespace wxstation

/-- C16. In every reading `Station.Measure` returns, whether the humidity driver succeeds
or fails, the fields Pressure and PressT are NaN. -/
theorem station_pressure_nan (s : Station) (bus : i2c.Bus) (t : i2c.Trace) :
    (s.Measure bus t).1.1.Pressure = math.NaN ∧ (s.Measure bus t).1.1.PressT = math.NaN := by
  rcases hm : s.rh.Measure bus t with ⟨⟨rh, e⟩, t1⟩
  cases e <;> simp only [Station.Measure, hm, Measurement.clear, and_self]

end wxstation

/-! ## Construction of the hygrometer driver -/

namespace htu21d

/-- A failed open ends `NewHTU21D` before any register access. -/
theorem newHTU21D_of_open_error (bus : i2c.Bus) (t : i2c.Trace) (dev : i2c.Devfs)
    (mode1 mode0 heater : Bool) (e : GoError)
    (ho : (bus.respond (t ++ [i2c.Event.open 0x40])).2 = some e) :
    NewHTU21D bus t dev mode1 mode0 heater = ((none, some e), t ++ [i2c.Event.open 0x40]) := by
  simp only [NewHTU21D, i2c.Open, ho]

/-- A failed register read ends `NewHTU21D` before the register write. -/
theorem newHTU21D_of_readReg_error (bus : i2c.Bus) (t : i2c.Trace) (dev : i2c.Devfs)
    (mode1 mode0 heater : Bool) (e : GoError)
    (ho : (bus.respond (t ++ [i2c.Event.open 0x40])).2 = none)
    (hr : (bus.respond (readRegTrace t)).2 = some e) :
    NewHTU21D bus t dev mode1 mode0 heater = ((none, some e), readRegTrace t) := by
  have hreg : htuReadReg = 0xE7 := rfl
  unfold readRegTrace at hr ⊢
  simp only [NewHTU21D, i2c.Open, ho, i2c.Device.ReadReg, hreg, List.replicate,
    List.length_cons, List.length_nil, Nat.zero_add, hr]

/-- After a successful open and register read `NewHTU21D` writes the configuration byte
once and returns according to the answer to that write. -/
theorem newHTU21D_of_readReg_ok (bus : i2c.Bus) (t : i2c.Trace) (dev : i2c.Devfs)
    (mode1 mode0 heater : Bool)
    (ho : (bus.respond (t ++ [i2c.Event.open 0x40])).2 = none)
    (hr : (bus.respond (readRegTrace t)).2 = none) :
    NewHTU21D bus t dev mode1 mode0 heater
      = (match (bus.respond (writeRegTrace bus t mode1 mode0 heater)).2 with
          | some e => (none, some e)
          | none => (some (driverOf ⟨0x40⟩ mode1 mode0 heater), none),
        writeRegTrace bus t mode1 mode0 heater) := by
  have hreg : htuReadReg = 0xE7 := rfl
  have hwreg : htuWriteReg = 0xE6 := rfl
  cases hwr : (bus.respond (writeRegTrace bus t mode1 mode0 heater)).2 with
  | some e =>
    unfold writeRegTrace readBack at hwr ⊢
    unfold readRegTrace at hr hwr ⊢
    simp only [NewHTU21D, i2c.Open, ho, i2c.Device.ReadReg, hreg, List.replicate,
      List.length_cons, List.length_nil, Nat.zero_add, hr, i2c.Device.WriteReg, hwreg, hwr]
  | none =>
    unfold writeRegTrace readBack at hwr ⊢
    unfold readRegTrace at hr hwr ⊢
    simp only [NewHTU21D, i2c.Open, ho, i2c.Device.ReadReg, hreg, List.replicate,
      List.length_cons, List.length_nil, Nat.zero_add, hr, i2c.Device.WriteReg, hwreg, hwr]

end htu21d

namespace htu21d

/-- C12. `NewHTU21D` returns a driver exactly when the open at address 0x40, the one-byte
read of register 0xE7 and the one-byte write of register 0xE6 all succeed, and then with
a nil error after exactly these three requests.  If one of them fails it returns no driver
and that error, and the requests end with the failed one: no register write after a failed
open or a failed register read. -/
theorem newHTU21D_outcomes (bus : i2c.Bus) (t : i2c.Trace) (dev : i2c.Devfs)
    (mode1 mode0 heater : Bool) :
    ((NewHTU21D bus t dev mode1 mode0 heater).1.1.isSome = true ↔
      ((bus.respond (t ++ [i2c.Event.open 0x40])).2 = none
        ∧ (bus.respond (readRegTrace t)).2 = none
        ∧ (bus.respond (writeRegTrace bus t mode1 mode0 heater)).2 = none))
    ∧ ((NewHTU21D bus t dev mode1 mode0 heater).1.1.isSome = true →
        NewHTU21D bus t dev mode1 mode0 heater
          = ((some (driverOf ⟨0x40⟩ mode1 mode0 heater), none),
              t ++ [i2c.Event.open 0x40] ++ [i2c.Event.readReg 0xE7 1]
                ++ [i2c.Event.writeReg 0xE6 [Fin.ofNat
                      (configReg (driverOf ⟨0x40⟩ mode1 mode0 heater) (readBack bus t))]]))
    ∧ (∀ e, (bus.respond (t ++ [i2c.Event.open 0x40])).2 = some e →
        NewHTU21D bus t dev mode1 mode0 heater
          = ((none, some e), t ++ [i2c.Event.open 0x40]))
    ∧ (∀ e, (bus.respond (t ++ [i2c.Event.open 0x40])).2 = none →
        (bus.respond (readRegTrace t)).2 = some e →
        NewHTU21D bus t dev mode1 mode0 heater
          = ((none, some e), t ++ [i2c.Event.open 0x40] ++ [i2c.Event.readReg 0xE7 1]))
    ∧ (∀ e, (bus.respond (t ++ [i2c.Event.open 0x40])).2 = none →
        (bus.respond (readRegTrace t)).2 = none →
        (bus.respond (writeRegTrace bus t mode1 mode0 heater)).2 = some e →
        NewHTU21D bus t dev mode1 mode0 heater
          = ((none, some e), writeRegTrace bus t mode1 mode0 heater)) := by
  have hopen := newHTU21D_of_open_error bus t dev mode1 mode0 heater
  have hread := newHTU21D_of_readReg_error bus t dev mode1 mode0 heater
  have hwrite := newHTU21D_of_readReg_ok bus t dev mode1 mode0 heater
  have hall : (NewHTU21D bus t dev mode1 mode0 heater).1.1.isSome = true →
      ((bus.respond (t ++ [i2c.Event.open 0x40])).2 = none
        ∧ (bus.respond (readRegTrace t)).2 = none
        ∧ (bus.respond (writeRegTrace bus t mode1 mode0 heater)).2 = none) := by
    intro hs
    cases ho : (bus.respond (t ++ [i2c.Event.open 0x40])).2 with
    | some e => rw [hopen e ho] at hs; simp at hs
    | none =>
      cases hr : (bus.respond (readRegTrace t)).2 with
      | some e => rw [hread e ho hr] at hs; simp at hs
      | none =>
        cases hw : (bus.respond (writeRegTrace bus t mode1 mode0 heater)).2 with
        | some e => rw [hwrite ho hr, hw] at hs; simp at hs
        | none => exact ⟨rfl, rfl, rfl⟩
  refine ⟨⟨hall, ?_⟩, ?_, hopen, ?_, ?_⟩
  · rintro ⟨ho, hr, hw⟩
    rw [hwrite ho hr, hw]
    rfl
  · intro hs
    obtain ⟨ho, hr, hw⟩ := hall hs
    rw [hwrite ho hr, hw]
    rfl
  · intro e ho hr
    rw [hread e ho hr]
    rfl
  · intro e ho hr hw
    rw [hwrite ho hr, hw]

/-- The configuration byte for the four option bits and the read-back, independent of the
other driver fields. -/
theorem configReg_closed : ∀ (mode1 mode0 heater : Bool) (r : Byte),
    configReg (driverOf ⟨0x40⟩ mode1 mode0 heater) r
        = 128 * b2b mode1 + 64 * b2b (r.val.testBit 3) + 4 * b2b heater + b2b mode0
    ∧ configReg (driverOf ⟨0x40⟩ mode1 mode0 heater) r
        = (b2b mode1 <<< 7) ||| (b2b (r.val.testBit 3) <<< 6) ||| (b2b heater <<< 2)
            ||| (b2b mode0 <<< 0)
    ∧ (configReg (driverOf ⟨0x40⟩ mode1 mode0 heater) r).testBit 5 = false
    ∧ (configReg (driverOf ⟨0x40⟩ mode1 mode0 heater) r).testBit 4 = false
    ∧ (configReg (driverOf ⟨0x40⟩ mode1 mode0 heater) r).testBit 3 = false
    ∧ (configReg (driverOf ⟨0x40⟩ mode1 mode0 heater) r).testBit 1 = false
    ∧ (configReg (driverOf ⟨0x40⟩ mode1 mode0 heater) r).testBit 6 = r.val.testBit 3 := by
  decide!

/-- C14. The byte `NewHTU21D` writes to the configuration register, with 8-bit wrap-around
and Go's precedence, is `(mode1 << 7) + (bit 3 of r) << 6 + (heater << 2) + mode0`: the sum
has no carry and equals the bitwise OR of its terms, bits 5, 4, 3 and 1 of the byte are 0,
bit 6 is bit 3 of the read-back `r`, and the other bits of `r` have no influence. -/
theorem configReg_actual (mode1 mode0 heater : Bool) (r : Byte) :
    configReg (driverOf ⟨0x40⟩ mode1 mode0 heater) r
        = 128 * b2b mode1 + 64 * b2b (r.val.testBit 3) + 4 * b2b heater + b2b mode0
    ∧ configReg (driverOf ⟨0x40⟩ mode1 mode0 heater) r
        = (b2b mode1 <<< 7) ||| (b2b (r.val.testBit 3) <<< 6) ||| (b2b heater <<< 2)
            ||| (b2b mode0 <<< 0)
    ∧ (configReg (driverOf ⟨0x40⟩ mode1 mode0 heater) r).testBit 5 = false
    ∧ (configReg (driverOf ⟨0x40⟩ mode1 mode0 heater) r).testBit 4 = false
    ∧ (configReg (driverOf ⟨0x40⟩ mode1 mode0 heater) r).testBit 3 = false
    ∧ (configReg (driverOf ⟨0x40⟩ mode1 mode0 heater) r).testBit 1 = false
    ∧ (configReg (driverOf ⟨0x40⟩ mode1 mode0 heater) r).testBit 6 = r.val.testBit 3
    ∧ (∀ r2 : Byte, r2.val.testBit 3 = r.val.testBit 3 →
        configReg (driverOf ⟨0x40⟩ mode1 mode0 heater) r2
          = configReg (driverOf ⟨0x40⟩ mode1 mode0 heater) r)
    ∧ (∀ (bus : i2c.Bus) (t : i2c.Trace) (dev : i2c.Devfs),
        (bus.respond (t ++ [i2c.Event.open 0x40])).2 = none →
        (bus.respond (readRegTrace t)).2 = none →
        (NewHTU21D bus t dev mode1 mode0 heater).2
          = readRegTrace t ++ [i2c.Event.writeReg 0xE6 [Fin.ofNat
              (128 * b2b mode1 + 64 * b2b ((readBack bus t).val.testBit 3) + 4 * b2b heater
                + b2b mode0)]]) := by
  obtain ⟨h1, h2, h3, h4, h5, h6, h7⟩ := configReg_closed mode1 mode0 heater r
  refine ⟨h1, h2, h3, h4, h5, h6, h7, ?_, ?_⟩
  · intro r2 hr2
    rw [h1, (configReg_closed mode1 mode0 heater r2).1, hr2]
  · intro bus t dev ho hr
    rw [newHTU21D_of_readReg_ok bus t dev mode1 mode0 heater ho hr]
    simp only [writeRegTrace]
    rw [(configReg_closed mode1 mode0 heater (readBack bus t)).1]

end htu21d

/-! ## Initialisation of the barometer -/

namespace mpl3115

/-- The register writes of `cmds`, as requests. -/
theorem cmdEvents_cmds :
    cmdEvents cmds
      = [i2c.Event.writeReg 0x0F [0x00], i2c.Event.writeReg 0x26 [0x79],
         i2c.Event.writeReg 0x27 [0x00], i2c.Event.writeReg 0x28 [0x00],
         i2c.Event.writeReg 0x29 [0x00], i2c.Event.writeReg 0x2A [0x00]] := by
  decide

/-- When every write succeeds the loop issues all the writes, in order. -/
theorem writeCmds_ok (m : Baraometer) (bus : i2c.Bus) : ∀ (l : List regCmd) (t : i2c.Trace),
    (∀ j, j < l.length → (bus.respond (t ++ (cmdEvents l).take (j + 1))).2 = none) →
    m.writeCmds bus t l = (none, t ++ cmdEvents l) := by
  intro l
  induction l with
  | nil => intro t _; simp [Baraometer.writeCmds, cmdEvents]
  | cons rg rest ih =>
    intro t h
    have h0 : (bus.respond (t ++ [i2c.Event.writeReg rg.reg.val [rg.cmd]])).2 = none := by
      simpa [cmdEvents] using h 0 (by simp)
    have hrest : ∀ j, j < rest.length →
        (bus.respond ((t ++ [i2c.Event.writeReg rg.reg.val [rg.cmd]])
          ++ (cmdEvents rest).take (j + 1))).2 = none := by
      intro j hj
      have := h (j + 1) (by simpa using hj)
      simpa [cmdEvents, List.append_assoc] using this
    simp only [Baraometer.writeCmds, i2c.Device.WriteReg, h0]
    rw [ih _ hrest]
    simp [cmdEvents]

/-- The loop stops at the first write that fails, with that error. -/
theorem writeCmds_fail (m : Baraometer) (bus : i2c.Bus) :
    ∀ (l : List regCmd) (t : i2c.Trace) (k : Nat) (e : GoError), k < l.length →
    (∀ j, j < k → (bus.respond (t ++ (cmdEvents l).take (j + 1))).2 = none) →
    (bus.respond (t ++ (cmdEvents l).take (k + 1))).2 = some e →
    m.writeCmds bus t l = (some e, t ++ (cmdEvents l).take (k + 1)) := by
  intro l
  induction l with
  | nil => intro t k e hk; simp at hk
  | cons rg rest ih =>
    intro t k e hk hbefore hfail
    cases k with
    | zero =>
      have h0 : (bus.respond (t ++ [i2c.Event.writeReg rg.reg.val [rg.cmd]])).2 = some e := by
        simpa [cmdEvents] using hfail
      simp only [Baraometer.writeCmds, i2c.Device.WriteReg, h0]
      simp [cmdEvents]
    | succ k =>
      have h0 : (bus.respond (t ++ [i2c.Event.writeReg rg.reg.val [rg.cmd]])).2 = none := by
        simpa [cmdEvents] using hbefore 0 (by omega)
      have hrest : ∀ j, j < k →
          (bus.respond ((t ++ [i2c.Event.writeReg rg.reg.val [rg.cmd]])
            ++ (cmdEvents rest).take (j + 1))).2 = none := by
        intro j hj
        have := hbefore (j + 1) (by omega)
        simpa [cmdEvents, List.append_assoc] using this
      have hfail2 : (bus.respond ((t ++ [i2c.Event.writeReg rg.reg.val [rg.cmd]])
            ++ (cmdEvents rest).take (k + 1))).2 = some e := by
        simpa [cmdEvents, List.append_assoc] using hfail
      simp only [Baraometer.writeCmds, i2c.Device.WriteReg, h0]
      rw [ih _ k e (by simpa using hk) hrest hfail2]
      simp [cmdEvents]

end mpl3115

namespace mpl3115

/-- C13. After opening the bus at address 0x60, `NewMPL3115` issues the single-byte
register writes (0x0F, 0x00), (0x26, 0x79), (0x27, 0x00), (0x28, 0x00), (0x29, 0x00),
(0x2A, 0x00) in this order; it stops at the first write that fails, issuing none of the
later writes and returning no device and that error; it returns a device only when the
open and all six writes succeeded. -/
theorem newMPL3115_sequence (bus : i2c.Bus) (t : i2c.Trace) (dev : i2c.Devfs) :
    cmdEvents cmds
      = [i2c.Event.writeReg 0x0F [0x00], i2c.Event.writeReg 0x26 [0x79],
         i2c.Event.writeReg 0x27 [0x00], i2c.Event.writeReg 0x28 [0x00],
         i2c.Event.writeReg 0x29 [0x00], i2c.Event.writeReg 0x2A [0x00]]
    ∧ (∀ e, (bus.respond (t ++ [i2c.Event.open 0x60])).2 = some e →
        NewMPL3115 bus t dev = ((none, some e), t ++ [i2c.Event.open 0x60]))
    ∧ ((bus.respond (t ++ [i2c.Event.open 0x60])).2 = none →
        ∀ k e, k < 6 →
        (∀ j, j < k →
          (bus.respond (t ++ [i2c.Event.open 0x60] ++ (cmdEvents cmds).take (j + 1))).2 = none) →
        (bus.respond (t ++ [i2c.Event.open 0x60] ++ (cmdEvents cmds).take (k + 1))).2 = some e →
        NewMPL3115 bus t dev
          = ((none, some e), t ++ [i2c.Event.open 0x60] ++ (cmdEvents cmds).take (k + 1)))
    ∧ ((bus.respond (t ++ [i2c.Event.open 0x60])).2 = none →
        (∀ j, j < 6 →
          (bus.respond (t ++ [i2c.Event.open 0x60] ++ (cmdEvents cmds).take (j + 1))).2 = none) →
        NewMPL3115 bus t dev
          = ((some ⟨⟨0x60⟩⟩, none), t ++ [i2c.Event.open 0x60] ++ cmdEvents cmds))
    ∧ ((NewMPL3115 bus t dev).1.1.isSome = true →
        (bus.respond (t ++ [i2c.Event.open 0x60])).2 = none
        ∧ ∀ j, j < 6 →
          (bus.respond (t ++ [i2c.Event.open 0x60] ++ (cmdEvents cmds).take (j + 1))).2
            = none) := by
  have hlen : cmds.length = 6 := rfl
  have hopen : ∀ e, (bus.respond (t ++ [i2c.Event.open 0x60])).2 = some e →
      NewMPL3115 bus t dev = ((none, some e), t ++ [i2c.Event.open 0x60]) := by
    intro e ho
    simp only [NewMPL3115, i2c.Open, ho]
  have hfail : (bus.respond (t ++ [i2c.Event.open 0x60])).2 = none →
      ∀ k e, k < 6 →
      (∀ j, j < k →
        (bus.respond (t ++ [i2c.Event.open 0x60] ++ (cmdEvents cmds).take (j + 1))).2 = none) →
      (bus.respond (t ++ [i2c.Event.open 0x60] ++ (cmdEvents cmds).take (k + 1))).2 = some e →
      NewMPL3115 bus t dev
        = ((none, some e), t ++ [i2c.Event.open 0x60] ++ (cmdEvents cmds).take (k + 1)) := by
    intro ho k e hk hbefore hk2
    simp only [NewMPL3115, i2c.Open, ho]
    rw [writeCmds_fail _ bus cmds _ k e (by rw [hlen]; exact hk) hbefore hk2]
  have hok : (bus.respond (t ++ [i2c.Event.open 0x60])).2 = none →
      (∀ j, j < 6 →
        (bus.respond (t ++ [i2c.Event.open 0x60] ++ (cmdEvents cmds).take (j + 1))).2 = none) →
      NewMPL3115 bus t dev
        = ((some ⟨⟨0x60⟩⟩, none), t ++ [i2c.Event.open 0x60] ++ cmdEvents cmds) := by
    intro ho hall
    simp only [NewMPL3115, i2c.Open, ho]
    rw [writeCmds_ok _ bus cmds _ (by rw [hlen]; exact hall)]
  refine ⟨cmdEvents_cmds, hopen, hfail, hok, ?_⟩
  intro hs
  cases ho : (bus.respond (t ++ [i2c.Event.open 0x60])).2 with
  | some e => rw [hopen e ho] at hs; simp at hs
  | none =>
    refine ⟨rfl, ?_⟩
    by_contra hnot
    push_neg at hnot
    classical
    have hex : ∃ j, j < 6 ∧
        (bus.respond (t ++ [i2c.Event.open 0x60] ++ (cmdEvents cmds).take (j + 1))).2 ≠ none := by
      obtain ⟨j, hj, hne⟩ := hnot
      exact ⟨j, hj, hne⟩
    have hspec := Nat.find_spec hex
    have hmin : ∀ j, j < Nat.find hex →
        (bus.respond (t ++ [i2c.Event.open 0x60] ++ (cmdEvents cmds).take (j + 1))).2 = none := by
      intro j hj
      have := Nat.find_min hex hj
      by_contra hne
      exact this ⟨by omega, hne⟩
    obtain ⟨e, he⟩ := Option.ne_none_iff_exists'.mp hspec.2
    rw [hfail ho (Nat.find hex) e hspec.1 hmin he] at hs
    simp at hs

end mpl3115

/-! ## Packets of zero bytes -/

namespace crc8Spec

/-- The spec's checksum of any number of zero bytes is zero. -/
theorem checksum_zeros (n : Nat) : checksum (List.replicate n (0 : Byte)) = 0 := by
  unfold checksum
  rw [Nat.xor_zero]
  induction n with
  | zero => rfl
  | succ n ih =>
    rw [List.replicate_succ, List.foldl_cons]
    have : (byteBits (0 : Byte)).foldl (bitStep 0x31) 0 = 0 := by decide
    rw [this]
    exact ih

end crc8Spec

namespace htu21d

/-- C15. `checkCRC` accepts the packet of `n` zero bytes for every `n ≥ 1`; so when the
command write and the bus read succeed and the buffer is left as `[0, 0, 0]`, `read`
returns sample 0 with a nil error. -/
theorem zero_packet_accepted (d : i2c.Device) (mode1 mode0 heater : Bool) :
    (∀ n, 1 ≤ n → (driverOf d mode1 mode0 heater).checkCRC (List.replicate n 0) = true)
    ∧ (∀ (bus : i2c.Bus) (t : i2c.Trace) (cmd : Byte) (backoff : Nat),
        (bus.respond (t ++ [i2c.Event.write [0xF5]])).2 = none →
        (bus.respond (readTrace t backoff)).2 = none →
        i2c.fill [0, 0, 0] (bus.respond (readTrace t backoff)).1 = [0, 0, 0] →
        ((driverOf d mode1 mode0 heater).read bus t cmd backoff).1 = (0, none)) := by
  have hzero : ∀ n, 1 ≤ n →
      (driverOf d mode1 mode0 heater).checkCRC (List.replicate n 0) = true := by
    intro n hn
    obtain ⟨m, rfl⟩ : ∃ m, n = m + 1 := ⟨n - 1, by omega⟩
    rw [List.replicate_succ', checkCRC_driverOf, crc8Spec.checksum_zeros]
    rfl
  refine ⟨hzero, ?_⟩
  intro bus t cmd backoff hw hr hb
  rw [read_of_no_error _ bus t cmd backoff hw hr, hb]
  have h3 : (driverOf d mode1 mode0 heater).checkCRC [0, 0, 0] = true := hzero 3 (by norm_num)
  rw [h3]
  rfl

/-- C15 at three zero bytes and at a transport that answers the read with three zero
bytes. -/
theorem zero_packet_accepted_witness :
    (driverOf ⟨0x40⟩ false false true).checkCRC [0, 0, 0] = true
    ∧ ((driverOf ⟨0x40⟩ false false true).read (steadyBus [0, 0, 0]) [] 0xF3 75000000).1
        = (0, none) :=
  ⟨(zero_packet_accepted ⟨0x40⟩ false false true).1 3 (by decide),
   (zero_packet_accepted ⟨0x40⟩ false false true).2 (steadyBus [0, 0, 0]) [] 0xF3 75000000
     rfl rfl rfl⟩

end htu21d

/-! ## The dew point below saturation -/

namespace htu21d.overReals

theorem b_pos : 0 < b := by unfold b; norm_num

/-- The dew point in terms of the logarithm of the relative humidity alone. -/
theorem dewpoint_eq_logb (T rh : ℝ) (hrh : 0 < rh) :
    dewpoint T rh = b / (b / (T + c) - Real.logb 10 (rh / 100)) - c := by
  unfold dewpoint partialPressure
  have hpp : (0 : ℝ) < (10 : ℝ) ^ (a - b / (T + c)) := Real.rpow_pos_of_pos (by norm_num) _
  have e1 : rh * (10.0 : ℝ) ^ (a - b / (T + c)) / 100.00
      = (rh / 100) * (10 : ℝ) ^ (a - b / (T + c)) := by
    norm_num
    ring
  rw [e1, Real.logb_mul (by positivity) (ne_of_gt hpp),
    Real.logb_rpow (by norm_num) (by norm_num)]
  have e2 : Real.logb 10 (rh / 100) + (a - b / (T + c)) - a
      = -(b / (T + c) - Real.logb 10 (rh / 100)) := by ring
  rw [e2, div_neg]
  ring

/-- At most 100 % relative humidity the logarithm of the humidity ratio is not positive. -/
theorem logb_nonpos_of_le (rh : ℝ) (h0 : 0 < rh) (h1 : rh ≤ 100) :
    Real.logb 10 (rh / 100) ≤ 0 :=
  Real.logb_nonpos (by norm_num) (by positivity) (by rw [div_le_one (by norm_num)]; exact h1)

/-- The denominator of the dew point formula is positive up to 100 % humidity. -/
theorem denom_pos (T rh : ℝ) (hT : -235.66 < T) (h0 : 0 < rh) (h1 : rh ≤ 100) :
    0 < b / (T + c) - Real.logb 10 (rh / 100) := by
  have hu : 0 < T + c := by unfold c; linarith
  have := logb_nonpos_of_le rh h0 h1
  have : 0 < b / (T + c) := div_pos b_pos hu
  linarith

/-- C17. Read over the real numbers, for every ambient temperature `T > -235.66` and
every relative humidity `0 < rh ≤ 100` the dew point is at most `T`, with equality exactly
at `rh = 100`; and for such `T` the dew point is strictly increasing in `rh` on
`(0, 100]`. -/
theorem dewpoint_le_ambient (T : ℝ) (hT : -235.66 < T) :
    (∀ rh, 0 < rh → rh ≤ 100 → dewpoint T rh ≤ T ∧ (dewpoint T rh = T ↔ rh = 100))
    ∧ (∀ rh1 rh2, 0 < rh1 → rh1 < rh2 → rh2 ≤ 100 → dewpoint T rh1 < dewpoint T rh2) := by
  have hu : 0 < T + c := by unfold c; linarith
  constructor
  · intro rh h0 h1
    have hL := logb_nonpos_of_le rh h0 h1
    have hE := denom_pos T rh hT h0 h1
    rw [dewpoint_eq_logb T rh h0]
    have hmul : (T + c) * (b / (T + c) - Real.logb 10 (rh / 100))
        = b - (T + c) * Real.logb 10 (rh / 100) := by
      field_simp
    constructor
    · have : b / (b / (T + c) - Real.logb 10 (rh / 100)) ≤ T + c := by
        rw [div_le_iff₀ hE, hmul]
        nlinarith
      linarith
    · constructor
      · intro heq
        have h2 : b / (b / (T + c) - Real.logb 10 (rh / 100)) = T + c := by linarith
        rw [div_eq_iff (ne_of_gt hE), hmul] at h2
        have h3 : (T + c) * Real.logb 10 (rh / 100) = 0 := by linarith
        have h4 : Real.logb 10 (rh / 100) = 0 := by
          rcases mul_eq_zero.mp h3 with h | h
          · exact absurd h (ne_of_gt hu)
          · exact h
        have h5 : rh / 100 = 1 := by
          have hpos : (0 : ℝ) < rh / 100 := by positivity
          have := Real.rpow_logb (b := 10) (by norm_num) (by norm_num) hpos
          rw [h4, Real.rpow_zero] at this
          exact this.symm
        linarith [(div_eq_one_iff_eq (by norm_num : (100 : ℝ) ≠ 0)).mp h5]
      · intro heq
        subst heq
        have : Real.logb 10 ((100 : ℝ) / 100) = 0 := by norm_num
        rw [this, sub_zero]
        have hbne : b ≠ 0 := ne_of_gt b_pos
        have hune : T + c ≠ 0 := ne_of_gt hu
        field_simp
  · intro rh1 rh2 h0 h12 h2
    have h1 : rh1 ≤ 100 := by linarith
    have h02 : 0 < rh2 := by linarith
    rw [dewpoint_eq_logb T rh1 h0, dewpoint_eq_logb T rh2 h02]
    have hE1 := denom_pos T rh1 hT h0 h1
    have hE2 := denom_pos T rh2 hT h02 h2
    have hlog : Real.logb 10 (rh1 / 100) < Real.logb 10 (rh2 / 100) :=
      Real.logb_lt_logb (by norm_num) (by positivity) (by
        apply div_lt_div_of_pos_right h12 (by norm_num))
    have : b / (b / (T + c) - Real.logb 10 (rh1 / 100))
        < b / (b / (T + c) - Real.logb 10 (rh2 / 100)) :=
      div_lt_div_of_pos_left b_pos hE2 (by linarith)
    linarith

/-- C17 at an ambient temperature of 20 degrees and relative humidities 50, 60 and
100. -/
theorem dewpoint_le_ambient_witness :
    dewpoint 20 50 ≤ 20 ∧ dewpoint 20 50 < dewpoint 20 60 ∧ dewpoint 20 100 = 20 :=
  ⟨((dewpoint_le_ambient 20 (by norm_num)).1 50 (by norm_num) (by norm_num)).1,
   (dewpoint_le_ambient 20 (by norm_num)).2 50 60 (by norm_num) (by norm_num) (by norm_num),
   ((dewpoint_le_ambient 20 (by norm_num)).1 100 (by norm_num) (by norm_num)).2.mpr rfl⟩

end htu21d.overReals
